import Mathlib

/-!
Shallow embedding of `mongodbforms/documents.py` (django-mongodbforms).

The module glues a document-mapping schema onto a web-form layer.  We embed
each function of the source over explicit data: document instances are
association lists of attribute values over an ordered schema, forms carry
cleaned data, per-field error lists and the deferred-deletion list, and
persistence / deletion calls are recorded as explicit counts or event lists.
External collaborators (the schema field validators, the whole-instance clean
hook, the host form layer's management flags) are modelled extensionally as
data carried by the embedded structures.
-/

set_option linter.unusedVariables false

/-- Runtime values stored in document attributes, cleaned-data entries and
primary keys. -/
inductive Val where
  | vStr : String → Val
  | vInt : Int → Val
  | vBool : Bool → Val
  | vNone : Val
deriving DecidableEq

/-- Python truthiness of a value (used for `cleaned_data["DELETE"]`). -/
def valTruthy : Val → Bool
  | .vStr s => !(s == "")
  | .vInt n => !(n == 0)
  | .vBool b => b
  | .vNone => false

/-- Membership of a value in Django's `EMPTY_VALUES` tuple `(None, [], (), \x7b\x7d, '')`;
only the variants representable here can occur. -/
def isEmptyVal (v : Val) : Bool := v == .vNone || v == .vStr ""

/-- First-match association-list lookup (Python `dict.get` for the dictionaries
we model, whose keys are kept duplicate-free by `sdSet`). -/
def lookupA {α : Type} : List (String × α) → String → Option α
  | [], _ => none
  | p :: rest, k => if p.1 = k then some p.2 else lookupA rest k

/-- The keys of an association list. -/
def keysA {α : Type} (m : List (String × α)) : List String := m.map (fun p => p.1)

/-- Python `del d[k]` (a no-op when the key is absent; every call site guards
with a membership test first, which makes the two coincide). -/
def eraseKey {α : Type} : List (String × α) → String → List (String × α)
  | [], _ => []
  | p :: rest, k => if p.1 = k then eraseKey rest k else p :: eraseKey rest k

/-- Dictionary assignment `d[k] = v`: replace the value in place when the key
exists (keeping its position, as Django's `SortedDict` does), append otherwise. -/
def sdSet {α : Type} : List (String × α) → String → α → List (String × α)
  | [], k, v => [(k, v)]
  | p :: rest, k, v => if p.1 = k then (k, v) :: rest else p :: sdSet rest k v

/-- Django `SortedDict(list_of_pairs)`: repeated assignment in order. -/
def sdFromList {α : Type} (l : List (String × α)) : List (String × α) :=
  l.foldl (fun acc p => sdSet acc p.1 p.2) []

/-- Python `dict.update`: assign every pair of `upd` into `m` in order. -/
def sdUpdate {α : Type} (m upd : List (String × α)) : List (String × α) :=
  upd.foldl (fun acc p => sdSet acc p.1 p.2) m

/-- Python truthiness of an optional list (`None` and `[]` are falsy). -/
def listTruthy {α : Type} : Option (List α) → Bool
  | none => false
  | some l => !l.isEmpty

/-- The kind of a schema field descriptor: identity (`ObjectIdField`),
collection (`ListField`), file (`FileField`) or any other field. -/
inductive FieldKind where
  | objectId | listField | fileField | plain
deriving DecidableEq

/-- A document-schema field descriptor.  The external mongoengine validator of
the field is modelled extensionally: `f.validate v` raises exactly when
`v ∈ invalidVals`. -/
structure SchemaField where
  name : String
  kind : FieldKind := .plain
  required : Bool := false
  unique : Bool := false
  invalidVals : List Val := []
deriving DecidableEq

/-- Whether `f.validate value` passes (see `SchemaField.invalidVals`). -/
def fieldValidateOk (f : SchemaField) (v : Val) : Bool := !(f.invalidVals.contains v)

/-- The message of the `ValidationError` raised by the field's validator. -/
def validationMessage (f : SchemaField) : String := "invalid " ++ f.name

/-- A document (or embedded-document) instance: the ordered `_fields` schema,
its attribute values, its primary key (`None` for new or embedded records),
capability flags for `hasattr(instance, 'save')` / `hasattr(instance,
'delete')`, and the messages of the whole-instance `clean` hook (`[]` means
the hook is absent or passes). -/
structure DocInstance where
  schema : List SchemaField
  vals : List (String × Val) := []
  pk : Option Val := none
  hasSave : Bool := true
  hasDelete : Bool := true
  cleanMsgs : List String := []
deriving DecidableEq

/-- `getattr(instance, name)`: an attribute never assigned reads as `None`. -/
def getAttr (inst : DocInstance) (n : String) : Val :=
  (lookupA inst.vals n).getD Val.vNone

/-- `setattr(instance, name, value)`. -/
def setAttr (inst : DocInstance) (n : String) (v : Val) : DocInstance :=
  { inst with vals := sdSet inst.vals n v }

/-- `construct_instance(form, instance, fields, exclude)`: copy each cleaned
value whose schema field is not an `ObjectIdField`, is present in
`cleaned_data`, is inside the allow-list and outside the deny-list, onto the
instance; file-typed fields are deferred to a second pass after all other
fields.  The gridfs name-collision probing and content replacement happen in
the external blob store; the document attribute ends up holding the uploaded
value. -/
def construct_instance (cleanedData : List (String × Val)) (inst : DocInstance)
    (fields exclude : Option (List String)) : DocInstance :=
  let pick := fun (f : SchemaField) =>
    !(f.kind == .objectId) &&
    (lookupA cleanedData f.name).isSome &&
    !(fields.isSome && !((fields.getD []).contains f.name)) &&
    !(listTruthy exclude && (exclude.getD []).contains f.name)
  let inst1 := inst.schema.foldl (fun acc f =>
    if pick f && !(f.kind == .fileField) then
      setAttr acc f.name ((lookupA cleanedData f.name).getD .vNone)
    else acc) inst
  inst.schema.foldl (fun acc f =>
    if pick f && (f.kind == .fileField) then
      setAttr acc f.name ((lookupA cleanedData f.name).getD .vNone)
    else acc) inst1

/-- The bound-form state used by validation and save: the target instance, the
stored collection of its document class (read by uniqueness checks), the names
of the form's fields, the Meta allow/deny lists, cleaned data, the per-key
error collection, the deferred `_delete_before_save` list (`none` while the
attribute is unset) and the `_validate_unique` flag. -/
structure DocForm where
  inst : DocInstance
  db : List DocInstance := []
  fieldNames : List String := []
  metaFields : Option (List String) := none
  metaExclude : Option (List String) := none
  cleanedData : List (String × Val) := []
  errors : List (String × List String) := []
  deleteBeforeSave : Option (List String) := none
  validateUniqueFlag : Bool := false
deriving DecidableEq

/-- `save_instance(form, instance, fields, fail_message, commit, exclude,
construct)`: the instance is constructed unconditionally (the `construct`
argument is accepted and ignored exactly as in the source), then a non-empty
error collection raises `ValueError` (third component; the in-place mutation
of the instance has already happened).  When committing and the instance has a
save operation, one persistence call is recorded with the instance's active
field names — the `_delete_before_save` names are removed for the call and the
full field set is restored afterwards, so the returned instance keeps its
whole schema. -/
def save_instance (cleanedData : List (String × Val))
    (errors : List (String × List String)) (deleteBeforeSave : Option (List String))
    (inst : DocInstance) (fields : Option (List String)) (failMessage : String)
    (commit : Bool) (exclude : Option (List String)) (construct : Bool) :
    DocInstance × List (List String) × Option String :=
  let inst := construct_instance cleanedData inst fields exclude
  if !errors.isEmpty then
    (inst, [], some ("The document could not be " ++ failMessage ++
      " because the data did not validate."))
  else if commit && inst.hasSave then
    match deleteBeforeSave with
    | some dbs =>
      (inst, [(inst.schema.map (fun f => f.name)).filter (fun n => !dbs.contains n)], none)
    | none => (inst, [inst.schema.map (fun f => f.name)], none)
  else (inst, [], none)

/-- `BaseDocumentForm.save(commit)`: derive the fail message from the primary
key, then delegate to `save_instance` with the Meta allow-list, no deny-list
and `construct=False`. -/
def documentFormSave (form : DocForm) (commit : Bool) :
    DocInstance × List (List String) × Option String :=
  let failMessage := if form.inst.pk.isNone then "created" else "changed"
  save_instance form.cleanedData form.errors form.deleteBeforeSave form.inst
    form.metaFields failMessage commit none false

/-- `document_to_dict(instance, fields, exclude)`: the instance's attribute
values keyed by field name, restricted by a truthy allow-list and a truthy
deny-list. -/
def document_to_dict (inst : DocInstance) (fields exclude : Option (List String)) :
    List (String × Val) :=
  inst.schema.foldl (fun data f =>
    if listTruthy fields && !((fields.getD []).contains f.name) then data
    else if listTruthy exclude && (exclude.getD []).contains f.name then data
    else sdSet data f.name (getAttr inst f.name)) []

/-- The key Django uses for errors not attached to a single field. -/
def NON_FIELD_ERRORS : String := "__all__"

/-- `self._errors.setdefault(k, ErrorList()).extend(v)`. -/
def extendErr : List (String × List String) → String → List String →
    List (String × List String)
  | [], k, v => [(k, v)]
  | p :: rest, k, v =>
    if p.1 = k then (p.1, p.2 ++ v) :: rest else p :: extendErr rest k v

/-- The per-key loop of `_update_errors`: for every key other than
`NON_FIELD_ERRORS`, extend that key's error list and delete the key from
cleaned data. -/
def ueLoop : List (String × List String) →
    List (String × List String) × List (String × Val) →
    List (String × List String) × List (String × Val)
  | [], ec => ec
  | kv :: rest, (e, c) =>
    if kv.1 != NON_FIELD_ERRORS then
      ueLoop rest (extendErr e kv.1 kv.2, eraseKey c kv.1)
    else ueLoop rest (e, c)

/-- `BaseDocumentForm._update_errors(message_dict)` acting on the pair
(errors, cleaned_data). -/
def _update_errors (messageDict : List (String × List String))
    (errors : List (String × List String)) (cleaned : List (String × Val)) :
    List (String × List String) × List (String × Val) :=
  let ec := ueLoop messageDict (errors, cleaned)
  match lookupA messageDict NON_FIELD_ERRORS with
  | some msgs => (extendErr ec.1 NON_FIELD_ERRORS msgs, ec.2)
  | none => ec

/-- The `elif` chain of `_get_validation_exclusions` for one schema field:
not on the form, outside a truthy Meta allow-list, inside a truthy Meta
deny-list, already failed form validation, or optional with an empty cleaned
value. -/
def excludedFromValidation (form : DocForm) (f : SchemaField) : Bool :=
  !(form.fieldNames.contains f.name) ||
  (listTruthy form.metaFields && !((form.metaFields.getD []).contains f.name)) ||
  (listTruthy form.metaExclude && (form.metaExclude.getD []).contains f.name) ||
  (keysA form.errors).contains f.name ||
  (!f.required && isEmptyVal ((lookupA form.cleanedData f.name).getD .vNone))

/-- `BaseDocumentForm._get_validation_exclusions()`. -/
def _get_validation_exclusions (form : DocForm) : List String :=
  (form.inst.schema.filter (fun f => excludedFromValidation form f)).map (fun f => f.name)

/-- The field-validation loop of `_post_clean`.  The source wraps the whole
loop in a single try/except, so the first `ValidationError` aborts it: the
result is the `to_delete` names collected so far together with the failing
field's name and message, if any. -/
def pcLoop (exclude : List String) (inst : DocInstance) :
    List SchemaField → List String × Option (String × String)
  | [] => ([], none)
  | f :: rest =>
    let value := getAttr inst f.name
    if !(exclude.contains f.name) then
      if fieldValidateOk f value then pcLoop exclude inst rest
      else ([], some (f.name, validationMessage f))
    else if value == .vStr "" then
      let r := pcLoop exclude inst rest
      (f.name :: r.1, r.2)
    else pcLoop exclude inst rest

/-- The message attached for a conflicting unique field. -/
def uniqueMessage (fieldName : String) : String :=
  "A document with this " ++ fieldName ++ " already exists."

/-- The per-field loop of `validate_unique`: for every unique, non-excluded
field, query the stored collection for records sharing the value (excluding
the instance's own primary key when it has one) and, on a match, merge one
field error and record the error dict. -/
def vuLoop (inst : DocInstance) (db : List DocInstance) (exclude : List String) :
    List SchemaField → List (String × List String) → List (String × Val) →
    List (String × List String) × List (String × Val) × List (String × List String)
  | [], e, c => (e, c, [])
  | f :: rest, e, c =>
    if f.unique && !(exclude.contains f.name) then
      let v := getAttr inst f.name
      let qs := db.filter (fun r => getAttr r f.name == v)
      let qs := if inst.pk.isSome then qs.filter (fun r => !(r.pk == inst.pk)) else qs
      if qs.length > 0 then
        let ed := [(f.name, [uniqueMessage f.name])]
        let ec := _update_errors ed e c
        let r := vuLoop inst db exclude rest ec.1 ec.2
        (r.1, r.2.1, ed ++ r.2.2)
      else vuLoop inst db exclude rest e c
    else vuLoop inst db exclude rest e c

/-- `BaseDocumentForm.validate_unique()`: computes the validation exclusions
once, runs the loop, and returns the updated form together with the list of
error dicts it reported. -/
def validate_unique (form : DocForm) :
    DocForm × List (String × List String) :=
  let exclude := _get_validation_exclusions form
  let r := vuLoop form.inst form.db exclude form.inst.schema form.errors form.cleanedData
  ({ form with errors := r.1, cleanedData := r.2.1 }, r.2.2)

/-- `BaseDocumentForm._post_clean()`: construct the instance from cleaned
data, compute the exclusions, run the (single-try/except) field-validation
loop, merge the error of the first failure if any, stash the `to_delete` list
as `_delete_before_save`, merge the whole-instance clean hook's messages as
non-field errors, and finally run `validate_unique` when the flag is set. -/
def _post_clean (form : DocForm) : DocForm :=
  let inst1 := construct_instance form.cleanedData form.inst form.metaFields form.metaExclude
  let form1 := { form with inst := inst1 }
  let exclude := _get_validation_exclusions form1
  let r := pcLoop exclude inst1 inst1.schema
  let form2 := match r.2 with
    | some nm =>
      let ec := _update_errors [(nm.1, [nm.2])] form1.errors form1.cleanedData
      { form1 with errors := ec.1, cleanedData := ec.2 }
    | none => form1
  let form3 := { form2 with deleteBeforeSave := some r.1 }
  let form4 := if !form3.inst.cleanMsgs.isEmpty then
      let ec := _update_errors [(NON_FIELD_ERRORS, form3.inst.cleanMsgs)]
        form3.errors form3.cleanedData
      { form3 with errors := ec.1, cleanedData := ec.2 }
    else form3
  if form4.validateUniqueFlag then (validate_unique form4).1 else form4

/-- A generated web-form field (identity matters only up to provenance and
widget, which is all the glue code inspects). -/
structure FormField where
  sourceName : String
  widget : Option String := none
deriving DecidableEq

/-- A document class: its name, ordered schema, and whether its `_meta` still
uses the legacy dict representation. -/
structure DocClass where
  name : String
  schema : List SchemaField
  metaIsDict : Bool := false
deriving DecidableEq

/-- A fresh instance of the class (`instance()` in `construct_instance`). -/
def DocClass.newInstance (c : DocClass) : DocInstance :=
  { schema := c.schema }

/-- The loop of `fields_for_document`: skip identity and collection fields,
apply the allow-list (`is not None` test) and the truthy deny-list, generate
the form field (through the callback when one is given, with the per-field
widget override), and split the names into generated pairs and ignored
names. -/
def ffdLoop (fields exclude : Option (List String))
    (widgets : Option (List (String × String)))
    (callback : Option (SchemaField → Option String → Option FormField))
    (gen : SchemaField → Option FormField) :
    List SchemaField → List (String × FormField) × List String
  | [] => ([], [])
  | f :: rest =>
    if f.kind == .objectId || f.kind == .listField then
      ffdLoop fields exclude widgets callback gen rest
    else if fields.isSome && !((fields.getD []).contains f.name) then
      ffdLoop fields exclude widgets callback gen rest
    else if listTruthy exclude && (exclude.getD []).contains f.name then
      ffdLoop fields exclude widgets callback gen rest
    else
      let kwargsWidget := if listTruthy widgets &&
          ((widgets.getD []).any (fun p => p.1 == f.name)) then
        lookupA (widgets.getD []) f.name
      else none
      let formfield := match callback with
        | some cb => cb f kwargsWidget
        | none => gen f
      match formfield with
      | some ff =>
        let r := ffdLoop fields exclude widgets callback gen rest
        ((f.name, ff) :: r.1, r.2)
      | none =>
        let r := ffdLoop fields exclude widgets callback gen rest
        (r.1, f.name :: r.2)

/-- `fields_for_document(document, fields, exclude, widgets,
formfield_callback, field_generator)`: run the loop, build the mapping, and —
when the allow-list is truthy — rebuild it in allow-list order, dropping
deny-listed and generator-ignored names and looking the rest up in the
mapping (absent names yield `none` entries, Python's `field_dict.get(f)`). -/
def fields_for_document (doc : List SchemaField) (fields exclude : Option (List String))
    (widgets : Option (List (String × String)))
    (callback : Option (SchemaField → Option String → Option FormField))
    (gen : SchemaField → Option FormField) : List (String × Option FormField) :=
  let r := ffdLoop fields exclude widgets callback gen doc
  let fieldDict := sdFromList (r.1.map (fun p => (p.1, some p.2)))
  if listTruthy fields then
    sdFromList ((fields.getD []).filterMap (fun f =>
      if (!(listTruthy exclude) || !((exclude.getD []).contains f)) && !(r.2.contains f)
      then some (f, (lookupA fieldDict f).join)
      else none))
  else fieldDict

/-- The configuration error raised by the metaclass, carrying the data its
message interpolates: the unknown field names and the document class name. -/
structure FieldErrorE where
  missingFields : List String
  documentName : String
deriving DecidableEq

/-- The document-configured branch of `DocumentFormMetaclass.__new__`: derive
the fields, collect the names mapped to `None`, subtract the declared names,
fail on any left over, and otherwise overlay the declared fields over the
derived mapping (`fields.update(declared_fields)`). -/
def documentFormMetaclassNew (doc : DocClass) (metaFields metaExclude : Option (List String))
    (widgets : Option (List (String × String)))
    (callback : Option (SchemaField → Option String → Option FormField))
    (gen : SchemaField → Option FormField)
    (declaredFields : List (String × FormField)) :
    Except FieldErrorE (List (String × Option FormField)) :=
  let fields := fields_for_document doc.schema metaFields metaExclude widgets callback gen
  let noneDocumentFields := (fields.filter (fun p => p.2.isNone)).map (fun p => p.1)
  let missingFields := noneDocumentFields.filter (fun n => !((keysA declaredFields).contains n))
  if !missingFields.isEmpty then
    .error { missingFields := missingFields, documentName := doc.name }
  else .ok (sdUpdate fields (declaredFields.map (fun p => (p.1, some p.2))))

/-- The errors this code raises as Python exceptions. -/
inductive PyError where
  | attributeError : String → PyError
  | valueError : String → PyError
deriving DecidableEq

/-- The declarative `class Meta` block as the options parser reads it
(`getattr(options, name, None)` for each recognized option). -/
structure MetaOptionsBlock where
  document : Option DocClass := none
  fields : Option (List String) := none
  exclude : Option (List String) := none
  widgets : Option (List (String × String)) := none
  embedded_field_name : Option String := none

/-- The normalized options record. -/
structure ModelFormOptionsR where
  document : Option DocClass
  model : Option DocClass
  fields : Option (List String)
  exclude : Option (List String)
  widgets : Option (List (String × String))
  embedded_field : Option String

/-- `ModelFormOptions.__init__(options)`: reads the block, then unconditionally
inspects `self.model._meta` to upgrade a legacy dict meta to `AdminOptions`;
when no document class was supplied the attribute access on `None` raises
`AttributeError`. -/
def modelFormOptionsInit (options : Option MetaOptionsBlock) :
    Except PyError ModelFormOptionsR :=
  let document := options.bind (fun o => o.document)
  match document with
  | none => .error (.attributeError "NoneType object has no attribute _meta")
  | some m =>
    let m := if m.metaIsDict then { m with metaIsDict := false } else m
    .ok { document := some m, model := some m,
          fields := options.bind (fun o => o.fields),
          exclude := options.bind (fun o => o.exclude),
          widgets := options.bind (fun o => o.widgets),
          embedded_field := options.bind (fun o => o.embedded_field_name) }

/-- The outcome of `BaseDocumentForm.__init__` that later steps read: whether
`self.instance` was left as the document class itself, the `object_data`
handed to the host form layer as its initial mapping, and the freshly reset
`_validate_unique` flag. -/
structure FormInitResult where
  instanceIsClass : Bool
  initialData : List (String × Val)
  validateUniqueFlag : Bool
deriving DecidableEq

/-- `BaseDocumentForm.__init__(..., initial, instance)`: with no instance and
no document class, raise `ValueError`; with no instance, keep the class and
empty object data; with an instance, derive object data via
`document_to_dict`; an explicit `initial` mapping then overrides it. -/
def baseDocumentFormInit (opts : ModelFormOptionsR) (inst : Option DocInstance)
    (initial : Option (List (String × Val))) : Except PyError FormInitResult :=
  match inst with
  | none =>
    match opts.document with
    | none => .error (.valueError "DocumentForm has no document class specified.")
    | some _ =>
      let objectData : List (String × Val) := []
      let objectData := match initial with
        | some ini => sdUpdate objectData ini
        | none => objectData
      .ok { instanceIsClass := true, initialData := objectData, validateUniqueFlag := false }
  | some i =>
    let objectData := document_to_dict i opts.fields opts.exclude
    let objectData := match initial with
      | some ini => sdUpdate objectData ini
      | none => objectData
    .ok { instanceIsClass := false, initialData := objectData, validateUniqueFlag := false }

/-- Modelled from the spec: the host web-form layer (outside this repository)
renders an unbound field from the form's initial mapping, falling back to the
form field's own default — "initial display data is taken from an explicit
`initial` mapping (overriding instance-derived data when both are present)". -/
def displayValue (initialData : List (String × Val)) (fieldName : String)
    (fieldDefault : Val) : Val :=
  (lookupA initialData fieldName).getD fieldDefault

/-- `EmbeddedDocumentForm.save(commit)`: outstanding errors raise `ValueError`;
when committing, the constructed instance is appended to the parent document's
embedded collection attribute and the parent is persisted.  The result carries
the instance, the parent's attributes, the number of parent persistence calls
and the number of persistence calls on the embedded instance itself. -/
def embeddedDocumentFormSave (form : DocForm)
    (parentAttrs : List (String × List DocInstance))
    (embeddedField : String) (commit : Bool) :
    Except PyError (DocInstance × List (String × List DocInstance) × Nat × Nat) :=
  if !form.errors.isEmpty then
    .error (.valueError "The document could not be saved because the data did not validate.")
  else if commit then
    match lookupA parentAttrs embeddedField with
    | none => .error (.attributeError embeddedField)
    | some l =>
      .ok (form.inst, sdSet parentAttrs embeddedField (l ++ [form.inst]), 1, 0)
  else .ok (form.inst, parentAttrs, 0, 0)

/-- One sub-form of a formset: its bound-form state plus the host layer's
`has_changed()` result and its membership in `self.initial_forms`. -/
structure SubForm where
  form : DocForm
  hasChangedFlag : Bool
  isInitialForm : Bool
deriving DecidableEq

/-- `BaseDocumentFormSet.save_object(form)`: `form.save(commit=False)`. -/
def formsetSaveObject (sf : SubForm) : DocInstance × List (List String) × Option String :=
  documentFormSave sf.form false

/-- The loop of `BaseDocumentFormSet.save()`: skip unchanged non-initial
forms; construct each remaining instance without committing; on a truthy
`cleaned_data["DELETE"]`, call `obj.delete()` — an instance without a delete
operation raises `AttributeError`, which is caught and skips the append;
otherwise fall through to the append.  Accumulates the saved list, the number
of delete calls and the number of persistence calls; a raised `ValueError`
(invalid form) or `KeyError` (missing DELETE key) propagates. -/
def formsetSaveLoop : List SubForm → List DocInstance → Nat → Nat →
    Except String (List DocInstance × Nat × Nat)
  | [], saved, dels, pers => .ok (saved, dels, pers)
  | sf :: rest, saved, dels, pers =>
    if !sf.hasChangedFlag && !sf.isInitialForm then formsetSaveLoop rest saved dels pers
    else
      match formsetSaveObject sf with
      | (_, _, some msg) => .error msg
      | (obj, saves, none) =>
        let pers := pers + saves.length
        match lookupA sf.form.cleanedData "DELETE" with
        | none => .error "KeyError: DELETE"
        | some dv =>
          if valTruthy dv then
            if obj.hasDelete then formsetSaveLoop rest (saved ++ [obj]) (dels + 1) pers
            else formsetSaveLoop rest saved dels pers
          else formsetSaveLoop rest (saved ++ [obj]) dels pers

/-- `BaseDocumentFormSet.save()`. -/
def formsetSave (forms : List SubForm) : Except String (List DocInstance × Nat × Nat) :=
  formsetSaveLoop forms [] 0 0

/-! ### Helper lemmas about the dictionary model -/

theorem lookupA_append {α : Type} (m l : List (String × α)) (k : String) :
    lookupA (m ++ l) k =
      match lookupA m k with
      | some v => some v
      | none => lookupA l k := by
  induction m with
  | nil => simp [lookupA]
  | cons p rest ih =>
    by_cases h : p.1 = k
    · simp [lookupA, h]
    · simp [lookupA, h, ih]

theorem lookupA_sdSet_self {α : Type} (m : List (String × α)) (k : String) (v : α) :
    lookupA (sdSet m k v) k = some v := by
  induction m with
  | nil => simp [sdSet, lookupA]
  | cons p rest ih =>
    by_cases h : p.1 = k
    · simp [sdSet, h, lookupA]
    · simp [sdSet, h, lookupA, ih]

theorem lookupA_sdSet_ne {α : Type} (m : List (String × α)) (k a : String) (v : α)
    (hne : a ≠ k) : lookupA (sdSet m k v) a = lookupA m a := by
  induction m with
  | nil => simp [sdSet, lookupA, Ne.symm hne]
  | cons p rest ih =>
    by_cases h : p.1 = k
    · have hpa : p.1 ≠ a := by rw [h]; exact Ne.symm hne
      simp [sdSet, h, lookupA, Ne.symm hne, hpa]
    · by_cases hpa : p.1 = a
      · simp [sdSet, h, lookupA, hpa, hne]
      · simp [sdSet, h, lookupA, hpa, ih]

theorem mem_sdSet {α : Type} (m : List (String × α)) (k : String) (v : α)
    (q : String × α) (h : q ∈ sdSet m k v) : q ∈ m ∨ q = (k, v) := by
  induction m with
  | nil => simp [sdSet] at h; right; exact h
  | cons p rest ih =>
    by_cases hp : p.1 = k
    · simp only [sdSet, hp, if_pos rfl] at h
      rcases List.mem_cons.mp h with h | h
      · right; exact h
      · left; exact List.mem_cons_of_mem _ h
    · simp only [sdSet, hp, if_neg hp] at h
      rcases List.mem_cons.mp h with h | h
      · left; rw [h]; exact List.mem_cons_self _ _
      · rcases ih h with h | h
        · left; exact List.mem_cons_of_mem _ h
        · right; exact h

theorem mem_keysA_sdSet_self {α : Type} (m : List (String × α)) (k : String) (v : α) :
    k ∈ keysA (sdSet m k v) := by
  induction m with
  | nil => simp [sdSet, keysA]
  | cons p rest ih =>
    by_cases hp : p.1 = k
    · simp [sdSet, hp, keysA]
    · simp only [sdSet, if_neg hp, keysA, List.map_cons, List.mem_cons]
      right
      exact ih

theorem mem_keysA_sdSet_of_mem {α : Type} (m : List (String × α)) (k a : String) (v : α)
    (h : a ∈ keysA m) : a ∈ keysA (sdSet m k v) := by
  induction m with
  | nil => simp [keysA] at h
  | cons p rest ih =>
    simp only [keysA, List.map_cons, List.mem_cons] at h
    by_cases hp : p.1 = k
    · simp only [sdSet, if_pos hp, keysA, List.map_cons, List.mem_cons]
      rcases h with h | h
      · left; rw [← hp, h]
      · right; exact h
    · simp only [sdSet, if_neg hp, keysA, List.map_cons, List.mem_cons]
      rcases h with h | h
      · left; exact h
      · right; exact ih h

theorem keysA_sdSet_subset {α : Type} (m : List (String × α)) (k a : String) (v : α)
    (h : a ∈ keysA (sdSet m k v)) : a ∈ keysA m ∨ a = k := by
  simp only [keysA, List.mem_map] at h
  rcases h with ⟨p, hp, rfl⟩
  rcases mem_sdSet m k v p hp with h | h
  · left; exact List.mem_map_of_mem _ h
  · right; rw [h]

theorem mem_sdUpdate {α : Type} (upd m : List (String × α)) (q : String × α)
    (h : q ∈ sdUpdate m upd) : q ∈ m ∨ q ∈ upd := by
  induction upd generalizing m with
  | nil => left; exact h
  | cons p rest ih =>
    have h' := ih (sdSet m p.1 p.2) h
    rcases h' with h' | h'
    · rcases mem_sdSet m p.1 p.2 q h' with h'' | h''
      · left; exact h''
      · right; rw [h'']; exact List.mem_cons_self _ _
    · right; exact List.mem_cons_of_mem _ h'

theorem mem_keysA_sdUpdate_left {α : Type} (upd m : List (String × α)) (a : String)
    (h : a ∈ keysA m) : a ∈ keysA (sdUpdate m upd) := by
  induction upd generalizing m with
  | nil => exact h
  | cons p rest ih => exact ih (sdSet m p.1 p.2) (mem_keysA_sdSet_of_mem m p.1 a p.2 h)

theorem mem_keysA_sdUpdate_right {α : Type} (upd m : List (String × α)) (a : String)
    (h : a ∈ keysA upd) : a ∈ keysA (sdUpdate m upd) := by
  induction upd generalizing m with
  | nil => simp [keysA] at h
  | cons p rest ih =>
    simp only [keysA, List.map_cons, List.mem_cons] at h
    rcases h with h | h
    · exact mem_keysA_sdUpdate_left rest (sdSet m p.1 p.2) a
        (h ▸ mem_keysA_sdSet_self m p.1 p.2)
    · exact ih (sdSet m p.1 p.2) h

theorem lookupA_of_forall_eq {α : Type} (m : List (String × α)) (k : String) (x : α)
    (hall : ∀ q ∈ m, q.1 = k → q.2 = x) (hmem : k ∈ keysA m) :
    lookupA m k = some x := by
  induction m with
  | nil => simp [keysA] at hmem
  | cons p rest ih =>
    by_cases hp : p.1 = k
    · have hv := hall p (List.mem_cons_self _ _) hp
      simp [lookupA, hp, hv]
    · simp only [lookupA, hp, if_neg hp]
      apply ih
      · exact fun q hq => hall q (List.mem_cons_of_mem _ hq)
      · simp only [keysA, List.map_cons, List.mem_cons] at hmem
        rcases hmem with hmem | hmem
        · exact absurd hmem.symm hp
        · exact hmem

theorem lookupA_sdUpdate_not_mem {α : Type} (upd m : List (String × α)) (a : String)
    (h : a ∉ keysA upd) : lookupA (sdUpdate m upd) a = lookupA m a := by
  induction upd generalizing m with
  | nil => rfl
  | cons p rest ih =>
    simp only [keysA, List.map_cons, List.mem_cons, not_or] at h
    calc lookupA (sdUpdate (sdSet m p.1 p.2) rest) a
        = lookupA (sdSet m p.1 p.2) a := ih (sdSet m p.1 p.2) (by simpa [keysA] using h.2)
      _ = lookupA m a := lookupA_sdSet_ne m p.1 a p.2 h.1

theorem lookupA_sdUpdate_mem_nodup {α : Type} (upd m : List (String × α)) (a : String)
    (v : α) (hnd : (keysA upd).Nodup) (hmem : (a, v) ∈ upd) :
    lookupA (sdUpdate m upd) a = some v := by
  induction upd generalizing m with
  | nil => simp at hmem
  | cons p rest ih =>
    simp only [keysA, List.map_cons, List.nodup_cons] at hnd
    rcases List.mem_cons.mp hmem with h | h
    · subst h
      show lookupA (sdUpdate (sdSet m a v) rest) a = some v
      rw [lookupA_sdUpdate_not_mem rest _ a hnd.1]
      exact lookupA_sdSet_self m a v
    · exact ih (sdSet m p.1 p.2) hnd.2 h

/-! ### Concrete inputs used by evaluation theorems and witnesses -/

/-- A deletable stored document (primary key 1, schema-less for clarity). -/
def c1InstDeletable : DocInstance :=
  { schema := [], pk := some (Val.vInt 1), hasSave := true, hasDelete := true }

/-- A second stored document (primary key 2) whose form is kept. -/
def c1InstKept : DocInstance :=
  { schema := [], pk := some (Val.vInt 2), hasSave := true, hasDelete := true }

/-- Sub-form with the deletion flag set over the deletable instance. -/
def c1FormDel : SubForm :=
  { form := { inst := c1InstDeletable, cleanedData := [("DELETE", Val.vBool true)] },
    hasChangedFlag := true, isInitialForm := true }

/-- Sub-form without the deletion flag over the second instance. -/
def c1FormKeep : SubForm :=
  { form := { inst := c1InstKept, cleanedData := [("DELETE", Val.vBool false)] },
    hasChangedFlag := true, isInitialForm := true }

/-- C1: evaluating `BaseDocumentFormSet.save` on a batch holding one
deletion-flagged sub-form whose instance has a delete operation and one
ordinary changed sub-form.  The deletion is performed (one delete call), yet
the deleted instance is still included in the returned list — the loop has no
skip after a successful `obj.delete()`, only in the `AttributeError` branch —
and no persistence call at all is made for the remaining instance, because
`save_object` always uses `commit=False`.  This contradicts the claim, which
requires the deleted instance to be excluded and the remaining instance to be
persisted. -/
theorem C1_formset_save_keeps_deleted_and_never_persists :
    formsetSave [c1FormDel, c1FormKeep] = .ok ([c1InstDeletable, c1InstKept], 1, 0) := by
  rfl

/-- C7: `ModelFormOptions.__init__` does not tolerate a missing document
class: the unconditional `self.model._meta` access raises `AttributeError`
already at class-definition time — both for an options block without a
`document` attribute and for an absent options block — even though
`BaseDocumentForm.__init__` carries a dedicated (and therefore unreachable)
`ValueError` branch for exactly this situation, shown by the third
conjunct on a hand-built options record. -/
theorem C7_options_without_document_raise_attribute_error :
    modelFormOptionsInit (some {}) =
      .error (.attributeError "NoneType object has no attribute _meta") ∧
    modelFormOptionsInit none =
      .error (.attributeError "NoneType object has no attribute _meta") ∧
    baseDocumentFormInit
      { document := none, model := none, fields := none, exclude := none,
        widgets := none, embedded_field := none } none none =
      .error (.valueError "DocumentForm has no document class specified.") :=
  ⟨rfl, rfl, rfl⟩

/-- The bound form used to exhibit the C2 counterexample: one schema field
`title` whose instance value is `"old"`, a cleaned value `"new"`, and a
non-empty error collection. -/
def c2Form : DocForm :=
  { inst := { schema := [{ name := "title" }], vals := [("title", Val.vStr "old")] },
    cleanedData := [("title", Val.vStr "new")],
    errors := [("title", ["bad"])] }

/-- C2 (counterexample): saving a form with outstanding errors does raise and
does not persist, but it does NOT leave the instance's attributes unchanged:
`save_instance` constructs the instance before checking `form.errors`, so the
`title` attribute flips from `"old"` to `"new"` although the save raised. -/
theorem C2_counterexample_save_mutates_instance_before_error :
    getAttr c2Form.inst "title" = Val.vStr "old" ∧
    (documentFormSave c2Form true).2.2.isSome = true ∧
    (documentFormSave c2Form true).2.1 = [] ∧
    getAttr (documentFormSave c2Form true).1 "title" = Val.vStr "new" := by
  decide

/-- C2 (amended): for every bound form whose error collection is non-empty,
save with any commit value raises an error to the caller and performs no
persistence call, but the returned (in-place mutated) instance is the one
constructed from cleaned data — the construction precedes the failure check,
so attributes already assigned by `construct_instance` stay assigned. -/
theorem C2_amended_save_with_errors_raises_without_persisting
    (form : DocForm) (commit : Bool) (h : form.errors ≠ []) :
    (documentFormSave form commit).2.2.isSome = true ∧
    (documentFormSave form commit).2.1 = [] ∧
    (documentFormSave form commit).1 =
      construct_instance form.cleanedData form.inst form.metaFields none := by
  have hne : form.errors.isEmpty = false := by
    cases herr : form.errors with
    | nil => exact absurd herr h
    | cons e es => simp [List.isEmpty]
  refine ⟨?_, ?_, ?_⟩ <;>
    simp [documentFormSave, save_instance, hne]

/-- C2 witness: the amended theorem applied at the concrete counterexample
form with commit enabled. -/
theorem C2_amended_witness :
    (documentFormSave c2Form true).2.2.isSome = true ∧
    (documentFormSave c2Form true).2.1 = [] ∧
    (documentFormSave c2Form true).1 =
      construct_instance c2Form.cleanedData c2Form.inst c2Form.metaFields none :=
  C2_amended_save_with_errors_raises_without_persisting c2Form true (by decide)

/-- C8: for every embedded-document form with no validation errors, save with
commit enabled appends exactly one instance — the form's constructed
instance — to the parent document's configured embedded collection attribute,
persists the parent exactly once, and never persists the embedded instance
itself. -/
theorem C8_embedded_save_appends_once_persists_parent_once
    (form : DocForm) (parentAttrs : List (String × List DocInstance))
    (embeddedField : String) (l : List DocInstance)
    (herr : form.errors = []) (hl : lookupA parentAttrs embeddedField = some l) :
    embeddedDocumentFormSave form parentAttrs embeddedField true =
      .ok (form.inst, sdSet parentAttrs embeddedField (l ++ [form.inst]), 1, 0) := by
  simp [embeddedDocumentFormSave, herr, hl]

/-- The embedded instance used by the C8 witness. -/
def c8Inst : DocInstance :=
  { schema := [{ name := "street" }], pk := none, hasSave := false, hasDelete := false }

/-- C8 witness: the theorem applied to a concrete error-free embedded form and
a parent with an empty `addresses` collection. -/
theorem C8_witness :
    embeddedDocumentFormSave { inst := c8Inst } [("addresses", [])] "addresses" true =
      .ok (c8Inst, sdSet [("addresses", [])] "addresses" ([] ++ [c8Inst]), 1, 0) :=
  C8_embedded_save_appends_once_persists_parent_once
    { inst := c8Inst } [("addresses", [])] "addresses" [] rfl rfl

/-! ### Lemmas about document_to_dict and the C9 round trip -/

theorem d2d_foldl_pairs (inst : DocInstance) (fields exclude : Option (List String))
    (s : List SchemaField) (acc : List (String × Val))
    (hacc : ∀ q ∈ acc, q.2 = getAttr inst q.1) :
    ∀ q ∈ s.foldl (fun data f =>
      if listTruthy fields && !((fields.getD []).contains f.name) then data
      else if listTruthy exclude && (exclude.getD []).contains f.name then data
      else sdSet data f.name (getAttr inst f.name)) acc,
      q.2 = getAttr inst q.1 := by
  induction s generalizing acc with
  | nil => exact hacc
  | cons f rest ih =>
    intro q hq
    rw [List.foldl_cons] at hq
    refine ih _ ?_ q hq
    intro q' hq'
    split at hq'
    · exact hacc q' hq'
    · split at hq'
      · exact hacc q' hq'
      · rcases mem_sdSet acc f.name (getAttr inst f.name) q' hq' with h | h
        · exact hacc q' h
        · rw [h]

theorem document_to_dict_pairs (inst : DocInstance) (fields exclude : Option (List String))
    (q : String × Val) (h : q ∈ document_to_dict inst fields exclude) :
    q.2 = getAttr inst q.1 :=
  d2d_foldl_pairs inst fields exclude inst.schema [] (by intro q hq; simp at hq) q h

theorem d2d_foldl_keys (inst : DocInstance) (s : List SchemaField)
    (acc : List (String × Val)) (name : String)
    (h : name ∈ s.map SchemaField.name ∨ name ∈ keysA acc) :
    name ∈ keysA (s.foldl (fun data f =>
      if listTruthy (none : Option (List String)) && !(([] : List String).contains f.name)
        then data
      else if listTruthy (none : Option (List String)) && (([] : List String).contains f.name)
        then data
      else sdSet data f.name (getAttr inst f.name)) acc) := by
  induction s generalizing acc with
  | nil =>
    rcases h with h | h
    · simp at h
    · exact h
  | cons f rest ih =>
    rw [List.foldl_cons]
    simp only [listTruthy, Bool.false_and, Bool.false_eq_true, if_false]
    rcases h with h | h
    · rw [List.map_cons] at h
      rcases List.mem_cons.mp h with h | h
      · refine ih _ (Or.inr ?_)
        rw [h]
        exact mem_keysA_sdSet_self acc f.name (getAttr inst f.name)
      · exact ih _ (Or.inl h)
    · exact ih _ (Or.inr (mem_keysA_sdSet_of_mem acc f.name name (getAttr inst f.name) h))

theorem document_to_dict_keys (inst : DocInstance) (name : String)
    (h : name ∈ inst.schema.map SchemaField.name) :
    name ∈ keysA (document_to_dict inst none none) := by
  unfold document_to_dict
  exact d2d_foldl_keys inst inst.schema [] name (Or.inl h)

/-- C9: round trip — applying `document_to_dict` to an instance and feeding
the result as the `initial` mapping of a new unbound form (of a class whose
options carry a document class) yields a form whose per-field display value
equals the instance's corresponding attribute value, for every name in the
form's field mapping that is a schema field of the instance. -/
theorem C9_round_trip_display_values
    (opts : ModelFormOptionsR) (cls : DocClass) (inst : DocInstance)
    (fieldNames : List String) (name : String) (fieldDefault : Val)
    (hdoc : opts.document = some cls)
    (hform : name ∈ fieldNames)
    (hschema : name ∈ inst.schema.map SchemaField.name) :
    (baseDocumentFormInit opts none (some (document_to_dict inst none none))).map
        (fun r => displayValue r.initialData name fieldDefault) =
      .ok (getAttr inst name) := by
  have hlook : lookupA (sdUpdate [] (document_to_dict inst none none)) name =
      some (getAttr inst name) := by
    apply lookupA_of_forall_eq
    · intro q hq hk
      rcases mem_sdUpdate _ _ q hq with h | h
      · simp at h
      · rw [document_to_dict_pairs inst none none q h, hk]
    · exact mem_keysA_sdUpdate_right _ [] name (document_to_dict_keys inst name hschema)
  simp [baseDocumentFormInit, hdoc, displayValue, hlook, Except.map]

/-- The document class and instance used by the C9 witness. -/
def c9Cls : DocClass := { name := "Article", schema := [{ name := "title" }] }

/-- A stored instance of `c9Cls` with a concrete title. -/
def c9Inst : DocInstance :=
  { schema := c9Cls.schema, vals := [("title", Val.vStr "hello")], pk := some (Val.vInt 7) }

/-- The options record of the matching form class. -/
def c9Opts : ModelFormOptionsR :=
  { document := some c9Cls, model := some c9Cls, fields := none, exclude := none,
    widgets := none, embedded_field := none }

/-- C9 witness: the round-trip theorem applied at the concrete instance,
form-field list `["title"]` and default display value `None`. -/
theorem C9_witness :
    (baseDocumentFormInit c9Opts none (some (document_to_dict c9Inst none none))).map
        (fun r => displayValue r.initialData "title" Val.vNone) =
      .ok (getAttr c9Inst "title") :=
  C9_round_trip_display_values c9Opts c9Cls c9Inst ["title"] "title" Val.vNone
    rfl (by decide) (by decide)

/-! ### The post-clean field-validation loop (C6) -/

/-- The instance `_post_clean` constructs before validating. -/
def postCleanInst (form : DocForm) : DocInstance :=
  construct_instance form.cleanedData form.inst form.metaFields form.metaExclude

/-- The validation exclusions `_post_clean` computes (over the constructed
instance). -/
def postCleanExcl (form : DocForm) : List String :=
  _get_validation_exclusions { form with inst := postCleanInst form }

theorem pcLoop_no_failure (exclude : List String) (inst : DocInstance)
    (s : List SchemaField)
    (h : ∀ f ∈ s, exclude.contains f.name = false →
      fieldValidateOk f (getAttr inst f.name) = true) :
    pcLoop exclude inst s =
      ((s.filter (fun f => exclude.contains f.name &&
          (getAttr inst f.name == Val.vStr ""))).map (fun f => f.name), none) := by
  induction s with
  | nil => simp [pcLoop]
  | cons f rest ih =>
    have hrest := ih (fun g hg => h g (List.mem_cons_of_mem _ hg))
    cases hc : exclude.contains f.name with
    | false =>
      have hok := h f (List.mem_cons_self _ _) hc
      have hc' : f.name ∉ exclude := by simpa using hc
      simp [pcLoop, hc', hok, hrest]
    | true =>
      have hc' : f.name ∈ exclude := by simpa using hc
      cases hv : (getAttr inst f.name == Val.vStr "") with
      | true =>
        have hv' : getAttr inst f.name = Val.vStr "" := by simpa using hv
        simp [pcLoop, hc', hv', hrest]
      | false =>
        have hv' : ¬ getAttr inst f.name = Val.vStr "" := by simpa using hv
        simp [pcLoop, hc', hv', hrest]

theorem pcLoop_first_failure (exclude : List String) (inst : DocInstance)
    (pre post : List SchemaField) (f : SchemaField)
    (hpre : ∀ g ∈ pre, exclude.contains g.name = false →
      fieldValidateOk g (getAttr inst g.name) = true)
    (hf1 : exclude.contains f.name = false)
    (hf2 : fieldValidateOk f (getAttr inst f.name) = false) :
    pcLoop exclude inst (pre ++ f :: post) =
      ((pre.filter (fun g => exclude.contains g.name &&
          (getAttr inst g.name == Val.vStr ""))).map (fun g => g.name),
        some (f.name, validationMessage f)) := by
  have hf1' : f.name ∉ exclude := by simpa using hf1
  induction pre with
  | nil => simp [pcLoop, hf1', hf2]
  | cons g rest ih =>
    have hrest := ih (fun g' hg' => hpre g' (List.mem_cons_of_mem _ hg'))
    cases hc : exclude.contains g.name with
    | false =>
      have hok := hpre g (List.mem_cons_self _ _) hc
      have hc' : g.name ∉ exclude := by simpa using hc
      simp [pcLoop, hc', hok, hrest]
    | true =>
      have hc' : g.name ∈ exclude := by simpa using hc
      cases hv : (getAttr inst g.name == Val.vStr "") with
      | true =>
        have hv' : getAttr inst g.name = Val.vStr "" := by simpa using hv
        simp [pcLoop, hc', hv', hrest]
      | false =>
        have hv' : ¬ getAttr inst g.name = Val.vStr "" := by simpa using hv
        simp [pcLoop, hc', hv', hrest]

theorem post_clean_shape (form : DocForm)
    (hclean : (postCleanInst form).cleanMsgs = [])
    (hvu : form.validateUniqueFlag = false)
    (td : List String) (ab : Option (String × String))
    (hr : pcLoop (postCleanExcl form) (postCleanInst form) (postCleanInst form).schema =
      (td, ab)) :
    _post_clean form =
      match ab with
      | some nm =>
        { form with
            inst := postCleanInst form,
            errors := (_update_errors [(nm.1, [nm.2])] form.errors form.cleanedData).1,
            cleanedData := (_update_errors [(nm.1, [nm.2])] form.errors form.cleanedData).2,
            deleteBeforeSave := some td }
      | none =>
        { form with
            inst := postCleanInst form,
            deleteBeforeSave := some td } := by
  simp only [postCleanInst, postCleanExcl] at hclean hr
  simp only [_post_clean, hr, postCleanInst]
  cases ab with
  | some nm => simp [hclean, hvu]
  | none => simp [hclean, hvu]

/-- First schema field of the C6 counterexample: its validator rejects `"x"`. -/
def c6f1 : SchemaField := { name := "a", required := true, invalidVals := [Val.vStr "x"] }

/-- Second schema field: its validator independently rejects `"y"`. -/
def c6f2 : SchemaField := { name := "b", required := true, invalidVals := [Val.vStr "y"] }

/-- Third schema field: not on the form (hence excluded), optional. -/
def c6f3 : SchemaField := { name := "c" }

/-- The bound form of the C6 counterexample: fields `a` and `b` are on the
form with cleaned values their validators reject, `c` is excluded with the
empty string as cleaned value. -/
def c6Form : DocForm :=
  { inst := { schema := [c6f1, c6f2, c6f3] },
    fieldNames := ["a", "b"],
    cleanedData := [("a", Val.vStr "x"), ("b", Val.vStr "y"), ("c", Val.vStr "")] }

/-- C6 (counterexample): a submission with two independently invalid
non-excluded fields (`a` and `b`) receives an error only on the first one —
the single try/except around the whole loop aborts it at the first
`ValidationError` — and the excluded empty-string field `c`, positioned after
the failure, is NOT added to the deletion-before-save list (it stays
`some []`), contradicting the claim on both counts. -/
theorem C6_counterexample_single_failure_abort :
    (_post_clean c6Form).errors = [("a", [validationMessage c6f1])] ∧
    lookupA (_post_clean c6Form).errors "b" = none ∧
    (_post_clean c6Form).deleteBeforeSave = some [] := by
  decide

/-- C6 (amended): during the post-clean pass the field-validation loop runs in
schema order inside a single try/except, so it stops at the first failure.
When every non-excluded schema field's (constructed-instance) value passes its
schema validator, no error is attached and exactly the excluded fields whose
value is the empty string are scheduled for deletion-before-save, in schema
order.  When some non-excluded field fails, exactly the first failing field
receives an error (and loses its cleaned entry, via the error-merging step);
fields after it are neither validated nor scheduled, and the deletion list
holds only the empty-valued excluded fields seen before the failure.  (Stated
with a passing or absent whole-instance clean hook and the uniqueness flag
off, isolating the field-validation step of the pass.) -/
theorem C6_amended_post_clean_stops_at_first_failure (form : DocForm)
    (hclean : (postCleanInst form).cleanMsgs = [])
    (hvu : form.validateUniqueFlag = false) :
    ((∀ f ∈ (postCleanInst form).schema,
        (postCleanExcl form).contains f.name = false →
        fieldValidateOk f (getAttr (postCleanInst form) f.name) = true) →
      (_post_clean form).errors = form.errors ∧
      (_post_clean form).cleanedData = form.cleanedData ∧
      (_post_clean form).deleteBeforeSave =
        some (((postCleanInst form).schema.filter (fun f =>
          (postCleanExcl form).contains f.name &&
          (getAttr (postCleanInst form) f.name == Val.vStr ""))).map (fun f => f.name))) ∧
    (∀ pre f post, (postCleanInst form).schema = pre ++ f :: post →
      (∀ g ∈ pre, (postCleanExcl form).contains g.name = false →
        fieldValidateOk g (getAttr (postCleanInst form) g.name) = true) →
      (postCleanExcl form).contains f.name = false →
      fieldValidateOk f (getAttr (postCleanInst form) f.name) = false →
      (_post_clean form).errors =
        (_update_errors [(f.name, [validationMessage f])] form.errors form.cleanedData).1 ∧
      (_post_clean form).cleanedData =
        (_update_errors [(f.name, [validationMessage f])] form.errors form.cleanedData).2 ∧
      (_post_clean form).deleteBeforeSave =
        some ((pre.filter (fun g =>
          (postCleanExcl form).contains g.name &&
          (getAttr (postCleanInst form) g.name == Val.vStr ""))).map (fun g => g.name))) := by
  constructor
  · intro hall
    have hr := pcLoop_no_failure (postCleanExcl form) (postCleanInst form)
      (postCleanInst form).schema hall
    rw [post_clean_shape form hclean hvu _ none hr]
    exact ⟨rfl, rfl, rfl⟩
  · intro pre f post hs hpre hf1 hf2
    have hr := pcLoop_first_failure (postCleanExcl form) (postCleanInst form)
      pre post f hpre hf1 hf2
    rw [← hs] at hr
    rw [post_clean_shape form hclean hvu _ (some (f.name, validationMessage f)) hr]
    exact ⟨rfl, rfl, rfl⟩

/-- C6 witness: the amended theorem's first-failure part applied at the
concrete counterexample form, with `pre = []`, the failing field `a` and the
unreached tail `[b, c]`. -/
theorem C6_amended_witness :
    (_post_clean c6Form).errors =
      (_update_errors [(c6f1.name, [validationMessage c6f1])]
        c6Form.errors c6Form.cleanedData).1 ∧
    (_post_clean c6Form).cleanedData =
      (_update_errors [(c6f1.name, [validationMessage c6f1])]
        c6Form.errors c6Form.cleanedData).2 ∧
    (_post_clean c6Form).deleteBeforeSave =
      some ((([] : List SchemaField).filter (fun g =>
        (postCleanExcl c6Form).contains g.name &&
        (getAttr (postCleanInst c6Form) g.name == Val.vStr ""))).map (fun g => g.name)) :=
  (C6_amended_post_clean_stops_at_first_failure c6Form (by decide) rfl).2
    [] c6f1 [c6f2, c6f3] (by decide) (by decide) (by decide) (by decide)

/-! ### Error-merging invariants (C10) -/

theorem mem_keysA_eraseKey {α : Type} (m : List (String × α)) (k a : String)
    (h : a ∈ keysA (eraseKey m k)) : a ∈ keysA m ∧ a ≠ k := by
  induction m with
  | nil => simp [eraseKey, keysA] at h
  | cons p rest ih =>
    by_cases hp : p.1 = k
    · simp only [eraseKey, if_pos hp] at h
      rcases ih h with ⟨h1, h2⟩
      exact ⟨by simp [keysA]; right; simpa [keysA] using h1, h2⟩
    · simp only [eraseKey, if_neg hp, keysA, List.map_cons, List.mem_cons] at h
      rcases h with h | h
      · constructor
        · simp [keysA, h]
        · rw [h]; exact fun hc => hp hc
      · rcases ih h with ⟨h1, h2⟩
        refine ⟨?_, h2⟩
        simp only [keysA, List.map_cons, List.mem_cons]
        right; simpa [keysA] using h1

theorem mem_keysA_extendErr (e : List (String × List String)) (k a : String)
    (v : List String) (h : a ∈ keysA (extendErr e k v)) : a ∈ keysA e ∨ a = k := by
  induction e with
  | nil => simp [extendErr, keysA] at h; right; exact h
  | cons p rest ih =>
    by_cases hp : p.1 = k
    · simp only [extendErr, if_pos hp, keysA, List.map_cons, List.mem_cons] at h
      rcases h with h | h
      · left; simp [keysA, h]
      · left; simp only [keysA, List.map_cons, List.mem_cons]; right; simpa [keysA] using h
    · simp only [extendErr, if_neg hp, keysA, List.map_cons, List.mem_cons] at h
      rcases h with h | h
      · left; simp [keysA, h]
      · rcases ih h with h | h
        · left; simp only [keysA, List.map_cons, List.mem_cons]; right; simpa [keysA] using h
        · right; exact h

theorem ueLoop_cons_ne (kv : String × List String) (rest : List (String × List String))
    (e : List (String × List String)) (c : List (String × Val))
    (h : kv.1 ≠ NON_FIELD_ERRORS) :
    ueLoop (kv :: rest) (e, c) = ueLoop rest (extendErr e kv.1 kv.2, eraseKey c kv.1) := by
  simp [ueLoop, h]

theorem ueLoop_cons_eq (kv : String × List String) (rest : List (String × List String))
    (e : List (String × List String)) (c : List (String × Val))
    (h : kv.1 = NON_FIELD_ERRORS) :
    ueLoop (kv :: rest) (e, c) = ueLoop rest (e, c) := by
  simp [ueLoop, h]

theorem ueLoop_cleaned_subset (msgs : List (String × List String))
    (e : List (String × List String)) (c : List (String × Val)) (a : String)
    (h : a ∈ keysA (ueLoop msgs (e, c)).2) : a ∈ keysA c := by
  induction msgs generalizing e c with
  | nil => exact h
  | cons kv rest ih =>
    by_cases hk : kv.1 = NON_FIELD_ERRORS
    · rw [ueLoop_cons_eq kv rest e c hk] at h
      exact ih _ _ h
    · rw [ueLoop_cons_ne kv rest e c hk] at h
      exact (mem_keysA_eraseKey c kv.1 a (ih _ _ h)).1

theorem ueLoop_msg_removed (msgs : List (String × List String))
    (e : List (String × List String)) (c : List (String × Val)) (k : String)
    (hk : k ≠ NON_FIELD_ERRORS) (hmem : k ∈ keysA msgs) :
    k ∉ keysA (ueLoop msgs (e, c)).2 := by
  induction msgs generalizing e c with
  | nil => simp [keysA] at hmem
  | cons kv rest ih =>
    simp only [keysA, List.map_cons, List.mem_cons] at hmem
    intro hbad
    rcases hmem with hmem | hmem
    · rw [ueLoop_cons_ne kv rest e c (by rw [← hmem]; exact hk)] at hbad
      have hsub := ueLoop_cleaned_subset rest _ _ k hbad
      have := (mem_keysA_eraseKey c kv.1 k hsub).2
      exact this hmem
    · by_cases hkv : kv.1 = NON_FIELD_ERRORS
      · rw [ueLoop_cons_eq kv rest e c hkv] at hbad
        exact ih _ _ (by simpa [keysA] using hmem) hbad
      · rw [ueLoop_cons_ne kv rest e c hkv] at hbad
        exact ih _ _ (by simpa [keysA] using hmem) hbad

theorem ueLoop_errors_keys (msgs : List (String × List String))
    (e : List (String × List String)) (c : List (String × Val)) (a : String)
    (h : a ∈ keysA (ueLoop msgs (e, c)).1) : a ∈ keysA e ∨ a ∈ keysA msgs := by
  induction msgs generalizing e c with
  | nil => left; exact h
  | cons kv rest ih =>
    by_cases hk : kv.1 = NON_FIELD_ERRORS
    · rw [ueLoop_cons_eq kv rest e c hk] at h
      rcases ih _ _ h with h | h
      · left; exact h
      · right; simp only [keysA, List.map_cons, List.mem_cons]; right
        simpa [keysA] using h
    · rw [ueLoop_cons_ne kv rest e c hk] at h
      rcases ih _ _ h with h | h
      · rcases mem_keysA_extendErr e kv.1 a kv.2 h with h | h
        · left; exact h
        · right; simp [keysA, h]
      · right; simp only [keysA, List.map_cons, List.mem_cons]; right
        simpa [keysA] using h

theorem update_errors_cleaned_subset (msgs : List (String × List String))
    (e : List (String × List String)) (c : List (String × Val)) (a : String)
    (h : a ∈ keysA (_update_errors msgs e c).2) : a ∈ keysA c := by
  unfold _update_errors at h
  cases hn : lookupA msgs NON_FIELD_ERRORS with
  | some msgs' => rw [hn] at h; exact ueLoop_cleaned_subset msgs e c a h
  | none => rw [hn] at h; exact ueLoop_cleaned_subset msgs e c a h

theorem update_errors_msg_removed (msgs : List (String × List String))
    (e : List (String × List String)) (c : List (String × Val)) (k : String)
    (hk : k ≠ NON_FIELD_ERRORS) (hmem : k ∈ keysA msgs) :
    k ∉ keysA (_update_errors msgs e c).2 := by
  unfold _update_errors
  cases hn : lookupA msgs NON_FIELD_ERRORS with
  | some msgs' => exact ueLoop_msg_removed msgs e c k hk hmem
  | none => exact ueLoop_msg_removed msgs e c k hk hmem

theorem update_errors_errors_keys (msgs : List (String × List String))
    (e : List (String × List String)) (c : List (String × Val)) (a : String)
    (h : a ∈ keysA (_update_errors msgs e c).1) :
    a ∈ keysA e ∨ a ∈ keysA msgs ∨ a = NON_FIELD_ERRORS := by
  unfold _update_errors at h
  cases hn : lookupA msgs NON_FIELD_ERRORS with
  | some msgs' =>
    rw [hn] at h
    rcases mem_keysA_extendErr _ NON_FIELD_ERRORS a msgs' h with h | h
    · rcases ueLoop_errors_keys msgs e c a h with h | h
      · left; exact h
      · right; left; exact h
    · right; right; exact h
  | none =>
    rw [hn] at h
    rcases ueLoop_errors_keys msgs e c a h with h | h
    · left; exact h
    · right; left; exact h

/-- Disjointness of the error collection and cleaned data is established for
the merged keys and preserved overall by `_update_errors` (given that the
non-field-error key, not being a field, has no cleaned entry). -/
theorem update_errors_disjoint (msgs : List (String × List String))
    (e : List (String × List String)) (c : List (String × Val))
    (hdisj : ∀ k ∈ keysA e, k ∉ keysA c)
    (hnfe : NON_FIELD_ERRORS ∉ keysA c) :
    ∀ k ∈ keysA (_update_errors msgs e c).1, k ∉ keysA (_update_errors msgs e c).2 := by
  intro k hk hbad
  rcases update_errors_errors_keys msgs e c k hk with h | h | h
  · exact hdisj k h (update_errors_cleaned_subset msgs e c k hbad)
  · by_cases hn : k = NON_FIELD_ERRORS
    · exact hnfe (hn ▸ update_errors_cleaned_subset msgs e c k hbad)
    · exact update_errors_msg_removed msgs e c k hn h hbad
  · exact hnfe (h ▸ update_errors_cleaned_subset msgs e c k hbad)

theorem vuLoop_inv (inst : DocInstance) (db : List DocInstance) (excl : List String)
    (s : List SchemaField) (e : List (String × List String)) (c : List (String × Val))
    (hdisj : ∀ k ∈ keysA e, k ∉ keysA c)
    (hnfe : NON_FIELD_ERRORS ∉ keysA c) :
    (∀ k ∈ keysA (vuLoop inst db excl s e c).1,
      k ∉ keysA (vuLoop inst db excl s e c).2.1) ∧
    NON_FIELD_ERRORS ∉ keysA (vuLoop inst db excl s e c).2.1 := by
  induction s generalizing e c with
  | nil => exact ⟨hdisj, hnfe⟩
  | cons f rest ih =>
    simp only [vuLoop]
    split
    · have hd' := update_errors_disjoint [(f.name, [uniqueMessage f.name])] e c hdisj hnfe
      have hn' : NON_FIELD_ERRORS ∉
          keysA (_update_errors [(f.name, [uniqueMessage f.name])] e c).2 :=
        fun hbad => hnfe (update_errors_cleaned_subset _ e c _ hbad)
      split <;> split <;>
        first
          | exact ih _ _ hd' hn'
          | exact ih _ _ hdisj hnfe
    · exact ih _ _ hdisj hnfe

theorem validate_unique_inv (form : DocForm)
    (hdisj : ∀ k ∈ keysA form.errors, k ∉ keysA form.cleanedData)
    (hnfe : NON_FIELD_ERRORS ∉ keysA form.cleanedData) :
    (∀ k ∈ keysA (validate_unique form).1.errors,
      k ∉ keysA (validate_unique form).1.cleanedData) ∧
    NON_FIELD_ERRORS ∉ keysA (validate_unique form).1.cleanedData := by
  unfold validate_unique
  exact vuLoop_inv form.inst form.db (_get_validation_exclusions form)
    form.inst.schema form.errors form.cleanedData hdisj hnfe


def pcStage2 (form : DocForm) (ab : Option (String × String)) :
    List (String × List String) × List (String × Val) :=
  match ab with
  | some nm => _update_errors [(nm.1, [nm.2])] form.errors form.cleanedData
  | none => (form.errors, form.cleanedData)

def pcStage4 (form : DocForm) (ab : Option (String × String)) :
    List (String × List String) × List (String × Val) :=
  if !(postCleanInst form).cleanMsgs.isEmpty then
    _update_errors [(NON_FIELD_ERRORS, (postCleanInst form).cleanMsgs)]
      (pcStage2 form ab).1 (pcStage2 form ab).2
  else pcStage2 form ab

def pcForm4 (form : DocForm) (td : List String) (ab : Option (String × String)) : DocForm :=
  { form with
      inst := postCleanInst form,
      errors := (pcStage4 form ab).1,
      cleanedData := (pcStage4 form ab).2,
      deleteBeforeSave := some td }

theorem post_clean_full_shape (form : DocForm) (td : List String)
    (ab : Option (String × String))
    (hr : pcLoop (postCleanExcl form) (postCleanInst form) (postCleanInst form).schema =
      (td, ab)) :
    _post_clean form =
      if (pcForm4 form td ab).validateUniqueFlag then (validate_unique (pcForm4 form td ab)).1
      else pcForm4 form td ab := by
  simp only [postCleanInst, postCleanExcl] at hr
  cases ab with
  | some nm =>
    simp only [_post_clean, hr, pcForm4, pcStage4, pcStage2, postCleanInst]
    split <;> rfl
  | none =>
    simp only [_post_clean, hr, pcForm4, pcStage4, pcStage2, postCleanInst]
    split <;> rfl

theorem post_clean_inv (form : DocForm)
    (hdisj : ∀ k ∈ keysA form.errors, k ∉ keysA form.cleanedData)
    (hnfe : NON_FIELD_ERRORS ∉ keysA form.cleanedData) :
    (∀ k ∈ keysA (_post_clean form).errors, k ∉ keysA (_post_clean form).cleanedData) ∧
    NON_FIELD_ERRORS ∉ keysA (_post_clean form).cleanedData := by
  obtain ⟨td, ab, hr⟩ : ∃ td ab,
      pcLoop (postCleanExcl form) (postCleanInst form) (postCleanInst form).schema =
        (td, ab) := ⟨_, _, rfl⟩
  rw [post_clean_full_shape form td ab hr]
  have h2 : (∀ k ∈ keysA (pcStage2 form ab).1, k ∉ keysA (pcStage2 form ab).2) ∧
      NON_FIELD_ERRORS ∉ keysA (pcStage2 form ab).2 := by
    cases ab with
    | some nm =>
      exact ⟨update_errors_disjoint _ _ _ hdisj hnfe,
        fun hbad => hnfe (update_errors_cleaned_subset _ _ _ _ hbad)⟩
    | none => exact ⟨hdisj, hnfe⟩
  have h4 : (∀ k ∈ keysA (pcStage4 form ab).1, k ∉ keysA (pcStage4 form ab).2) ∧
      NON_FIELD_ERRORS ∉ keysA (pcStage4 form ab).2 := by
    unfold pcStage4
    split
    · exact ⟨update_errors_disjoint _ _ _ h2.1 h2.2,
        fun hbad => h2.2 (update_errors_cleaned_subset _ _ _ _ hbad)⟩
    · exact h2
  split
  · exact validate_unique_inv (pcForm4 form td ab) h4.1 h4.2
  · exact h4

/-- C10: after any validation pass the per-field error collection and the
cleaned-data mapping are disjoint.  First two conjuncts: the error-merging
step `_update_errors` removes every merged field key from cleaned data and,
from a disjoint state (with the non-field-error key — not a field — absent
from cleaned data), produces a disjoint state.  Third conjunct: the whole
post-clean pass (schema-validation errors, clean-hook errors and uniqueness
errors all flow through the merging step) preserves the disjointness, so no
field ever holds both an attached error and a cleaned value. -/
theorem C10_error_merge_keeps_errors_and_cleaned_disjoint
    (msgs e : List (String × List String)) (c : List (String × Val)) (form : DocForm)
    (hdisj : ∀ k ∈ keysA e, k ∉ keysA c)
    (hnfe : NON_FIELD_ERRORS ∉ keysA c)
    (hfdisj : ∀ k ∈ keysA form.errors, k ∉ keysA form.cleanedData)
    (hfnfe : NON_FIELD_ERRORS ∉ keysA form.cleanedData) :
    (∀ k ∈ keysA msgs, k ≠ NON_FIELD_ERRORS → k ∉ keysA (_update_errors msgs e c).2) ∧
    (∀ k ∈ keysA (_update_errors msgs e c).1, k ∉ keysA (_update_errors msgs e c).2) ∧
    (∀ k ∈ keysA (_post_clean form).errors, k ∉ keysA (_post_clean form).cleanedData) :=
  ⟨fun k hk hne => update_errors_msg_removed msgs e c k hne hk,
   update_errors_disjoint msgs e c hdisj hnfe,
   (post_clean_inv form hfdisj hfnfe).1⟩

/-- The bound form used by the C10 witness: one validated field with a cleaned
value, no prior errors. -/
def c10Form : DocForm :=
  { inst := { schema := [{ name := "t", required := true }] },
    fieldNames := ["t"],
    cleanedData := [("t", Val.vStr "v")] }

/-- C10 witness: the invariant theorem applied at a concrete merge — an error
arriving on field `a`, a prior error on `b`, cleaned data holding `a` — and at
the concrete form `c10Form`. -/
theorem C10_witness :
    (∀ k ∈ keysA [("a", ["m"])], k ≠ NON_FIELD_ERRORS →
      k ∉ keysA (_update_errors [("a", ["m"])] [("b", ["n"])] [("a", Val.vStr "1")]).2) ∧
    (∀ k ∈ keysA (_update_errors [("a", ["m"])] [("b", ["n"])] [("a", Val.vStr "1")]).1,
      k ∉ keysA (_update_errors [("a", ["m"])] [("b", ["n"])] [("a", Val.vStr "1")]).2) ∧
    (∀ k ∈ keysA (_post_clean c10Form).errors,
      k ∉ keysA (_post_clean c10Form).cleanedData) :=
  C10_error_merge_keeps_errors_and_cleaned_disjoint
    [("a", ["m"])] [("b", ["n"])] [("a", Val.vStr "1")] c10Form
    (by decide) (by decide) (by decide) (by decide)

/-! ### Uniqueness validation (C5) -/

theorem lookupA_extendErr_of_none (e : List (String × List String)) (k : String)
    (v : List String) (h : lookupA e k = none) : lookupA (extendErr e k v) k = some v := by
  induction e with
  | nil => simp [extendErr, lookupA]
  | cons p rest ih =>
    have hp : p.1 ≠ k := by
      intro hpk
      simp [lookupA, hpk] at h
    have h' : lookupA rest k = none := by
      simpa [lookupA, hp] using h
    simp [extendErr, hp, lookupA, ih h']

theorem lookupA_extendErr_ne (e : List (String × List String)) (k a : String)
    (v : List String) (hne : a ≠ k) : lookupA (extendErr e k v) a = lookupA e a := by
  induction e with
  | nil => simp [extendErr, lookupA, Ne.symm hne]
  | cons p rest ih =>
    by_cases hp : p.1 = k
    · have hpa : p.1 ≠ a := by rw [hp]; exact Ne.symm hne
      simp [extendErr, hp, lookupA, hpa, Ne.symm hne]
    · by_cases hpa : p.1 = a
      · simp [extendErr, hp, lookupA, hpa, hne]
      · simp [extendErr, hp, lookupA, hpa, hne, ih]

theorem update_errors_single_lookup_self (n : String) (msgs : List String)
    (e : List (String × List String)) (c : List (String × Val))
    (h : lookupA e n = none) :
    lookupA (_update_errors [(n, msgs)] e c).1 n = some msgs := by
  by_cases hn : n = NON_FIELD_ERRORS
  · subst hn
    simp only [_update_errors, ueLoop, bne_self_eq_false, Bool.false_eq_true, if_false,
      lookupA, if_pos rfl]
    exact lookupA_extendErr_of_none e _ msgs h
  · have hb : ueLoop [(n, msgs)] (e, c) = (extendErr e n msgs, eraseKey c n) := by
      rw [ueLoop_cons_ne (n, msgs) [] e c hn]
      rfl
    simp only [_update_errors, hb, lookupA, if_neg hn]
    exact lookupA_extendErr_of_none e n msgs h

theorem update_errors_single_lookup_ne (n : String) (msgs : List String)
    (e : List (String × List String)) (c : List (String × Val)) (a : String)
    (hne : a ≠ n) :
    lookupA (_update_errors [(n, msgs)] e c).1 a = lookupA e a := by
  by_cases hn : n = NON_FIELD_ERRORS
  · subst hn
    simp only [_update_errors, ueLoop, bne_self_eq_false, Bool.false_eq_true, if_false,
      lookupA, if_pos rfl]
    exact lookupA_extendErr_ne e _ a msgs hne
  · have hb : ueLoop [(n, msgs)] (e, c) = (extendErr e n msgs, eraseKey c n) := by
      rw [ueLoop_cons_ne (n, msgs) [] e c hn]
      rfl
    simp only [_update_errors, hb, lookupA, if_neg hn]
    exact lookupA_extendErr_ne e n a msgs hne

/-- The conflict condition of `validate_unique` for one field: the stored
collection, filtered by the field's value and (when the instance has a primary
key) by a different primary key, is non-empty. -/
def vuConflict (inst : DocInstance) (db : List DocInstance) (f : SchemaField) : Prop :=
  (if inst.pk.isSome then
      (db.filter (fun r => getAttr r f.name == getAttr inst f.name)).filter
        (fun r => !(r.pk == inst.pk))
    else db.filter (fun r => getAttr r f.name == getAttr inst f.name)).length > 0

instance (inst : DocInstance) (db : List DocInstance) (f : SchemaField) :
    Decidable (vuConflict inst db f) := by
  unfold vuConflict
  infer_instance

theorem vuConflict_iff (inst : DocInstance) (db : List DocInstance) (f : SchemaField) :
    vuConflict inst db f ↔ ∃ r ∈ db, getAttr r f.name = getAttr inst f.name ∧
      (inst.pk = none ∨ r.pk ≠ inst.pk) := by
  unfold vuConflict
  cases hpk : inst.pk with
  | none =>
    simp [hpk, List.length_pos, List.eq_nil_iff_forall_not_mem, List.mem_filter]
  | some v =>
    simp only [hpk, Option.isSome_some, if_true, List.length_pos,
      Ne, List.eq_nil_iff_forall_not_mem, List.mem_filter, not_forall, not_not,
      Bool.and_eq_true, beq_iff_eq, Bool.not_eq_true', beq_eq_false_iff_ne,
      Option.some.injEq, reduceCtorEq, false_or, exists_prop]
    constructor
    · rintro ⟨r, ⟨⟨hr, h1⟩, h2⟩⟩
      exact ⟨r, hr, h1, h2⟩
    · rintro ⟨r, hr, h1, h2⟩
      exact ⟨r, ⟨⟨hr, h1⟩, h2⟩⟩

theorem vuLoop_cons_skip (inst : DocInstance) (db : List DocInstance) (excl : List String)
    (f : SchemaField) (rest : List SchemaField) (e : List (String × List String))
    (c : List (String × Val))
    (h : (f.unique && !(excl.contains f.name)) = false) :
    vuLoop inst db excl (f :: rest) e c = vuLoop inst db excl rest e c := by
  simp only [vuLoop, h, Bool.false_eq_true, if_false]

theorem vuLoop_cons_active (inst : DocInstance) (db : List DocInstance) (excl : List String)
    (f : SchemaField) (rest : List SchemaField) (e : List (String × List String))
    (c : List (String × Val))
    (h : (f.unique && !(excl.contains f.name)) = true) :
    vuLoop inst db excl (f :: rest) e c =
      if vuConflict inst db f then
        ((vuLoop inst db excl rest
            (_update_errors [(f.name, [uniqueMessage f.name])] e c).1
            (_update_errors [(f.name, [uniqueMessage f.name])] e c).2).1,
          (vuLoop inst db excl rest
            (_update_errors [(f.name, [uniqueMessage f.name])] e c).1
            (_update_errors [(f.name, [uniqueMessage f.name])] e c).2).2.1,
          [(f.name, [uniqueMessage f.name])] ++
            (vuLoop inst db excl rest
              (_update_errors [(f.name, [uniqueMessage f.name])] e c).1
              (_update_errors [(f.name, [uniqueMessage f.name])] e c).2).2.2)
      else vuLoop inst db excl rest e c := by
  simp only [vuLoop, h, if_true]
  rfl

theorem vuLoop_errors_lookup_not_mem (inst : DocInstance) (db : List DocInstance)
    (excl : List String) (s : List SchemaField) (a : String) :
    a ∉ s.map SchemaField.name →
    ∀ (e : List (String × List String)) (c : List (String × Val)),
      lookupA (vuLoop inst db excl s e c).1 a = lookupA e a := by
  induction s with
  | nil => intro _ e c; rfl
  | cons g rest ih =>
    intro ha e c
    rw [List.map_cons] at ha
    have hag : a ≠ g.name := by
      intro hEq
      exact ha (by rw [hEq]; exact List.mem_cons_self _ _)
    have har : a ∉ rest.map SchemaField.name := fun hEq => ha (List.mem_cons_of_mem _ hEq)
    by_cases hcond : (g.unique && !(excl.contains g.name)) = true
    · rw [vuLoop_cons_active inst db excl g rest e c hcond]
      by_cases hc : vuConflict inst db g
      · rw [if_pos hc]
        rw [ih har _ _]
        exact update_errors_single_lookup_ne g.name _ e c a hag
      · rw [if_neg hc]
        exact ih har e c
    · rw [vuLoop_cons_skip inst db excl g rest e c (by simpa using hcond)]
      exact ih har e c

theorem vuLoop_errors_lookup_target (inst : DocInstance) (db : List DocInstance)
    (excl : List String) (s : List SchemaField) (f : SchemaField)
    (hu : f.unique = true) (hexcl : excl.contains f.name = false) :
    (s.map SchemaField.name).Nodup → f ∈ s →
    ∀ (e : List (String × List String)) (c : List (String × Val)),
      lookupA e f.name = none →
      lookupA (vuLoop inst db excl s e c).1 f.name =
        if vuConflict inst db f then some [uniqueMessage f.name] else none := by
  induction s with
  | nil => intro _ hf; exact absurd hf (List.not_mem_nil f)
  | cons g rest ih =>
    intro hnd hf e c hpre
    rw [List.map_cons, List.nodup_cons] at hnd
    rcases List.mem_cons.mp hf with hfg | hfr
    · subst hfg
      have hexcl' : f.name ∉ excl := by simpa using hexcl
      have hcond : (f.unique && !(excl.contains f.name)) = true := by
        simp [hu, hexcl']
      rw [vuLoop_cons_active inst db excl f rest e c hcond]
      have hnotin : f.name ∉ rest.map SchemaField.name := hnd.1
      by_cases hc : vuConflict inst db f
      · rw [if_pos hc, if_pos hc]
        dsimp only
        rw [vuLoop_errors_lookup_not_mem inst db excl rest f.name hnotin _ _]
        exact update_errors_single_lookup_self f.name _ e c hpre
      · rw [if_neg hc, if_neg hc]
        rw [vuLoop_errors_lookup_not_mem inst db excl rest f.name hnotin e c]
        exact hpre
    · have hne : f.name ≠ g.name := by
        intro hEq
        exact hnd.1 (hEq ▸ List.mem_map_of_mem SchemaField.name hfr)
      by_cases hcond : (g.unique && !(excl.contains g.name)) = true
      · rw [vuLoop_cons_active inst db excl g rest e c hcond]
        by_cases hc : vuConflict inst db g
        · rw [if_pos hc]
          dsimp only
          exact ih hnd.2 hfr _ _ (by
            rw [update_errors_single_lookup_ne g.name _ e c f.name hne]
            exact hpre)
        · rw [if_neg hc]
          exact ih hnd.2 hfr e c hpre
      · rw [vuLoop_cons_skip inst db excl g rest e c (by simpa using hcond)]
        exact ih hnd.2 hfr e c hpre

/-- C5: uniqueness validation attaches an error on a unique-marked,
non-excluded schema field if and only if some other stored record — one whose
primary key differs from the instance's when the instance already has one —
shares that field's value; when attached, the error is exactly one message for
that field, and when no such other record exists (in particular, when a record
is re-submitted unchanged under its own identity and the only value match is
itself) no error is attached. -/
theorem C5_validate_unique_iff_conflict (form : DocForm) (f : SchemaField)
    (hnd : (form.inst.schema.map SchemaField.name).Nodup)
    (hf : f ∈ form.inst.schema)
    (hu : f.unique = true)
    (hexcl : (_get_validation_exclusions form).contains f.name = false)
    (hpre : lookupA form.errors f.name = none) :
    (lookupA (validate_unique form).1.errors f.name = some [uniqueMessage f.name] ↔
      ∃ r ∈ form.db, getAttr r f.name = getAttr form.inst f.name ∧
        (form.inst.pk = none ∨ r.pk ≠ form.inst.pk)) ∧
    ((¬ ∃ r ∈ form.db, getAttr r f.name = getAttr form.inst f.name ∧
        (form.inst.pk = none ∨ r.pk ≠ form.inst.pk)) →
      lookupA (validate_unique form).1.errors f.name = none) := by
  have heq : lookupA (validate_unique form).1.errors f.name =
      if vuConflict form.inst form.db f then some [uniqueMessage f.name] else none := by
    show lookupA (vuLoop form.inst form.db (_get_validation_exclusions form)
        form.inst.schema form.errors form.cleanedData).1 f.name = _
    exact vuLoop_errors_lookup_target form.inst form.db _ form.inst.schema f hu hexcl
      hnd hf form.errors form.cleanedData hpre
  constructor
  · rw [heq]
    by_cases hc : vuConflict form.inst form.db f
    · rw [if_pos hc]
      exact ⟨fun _ => (vuConflict_iff _ _ _).mp hc, fun _ => rfl⟩
    · rw [if_neg hc]
      constructor
      · intro hbad; exact absurd hbad (by simp)
      · intro hex; exact absurd ((vuConflict_iff _ _ _).mpr hex) hc
  · intro hnex
    rw [heq, if_neg (fun hc => hnex ((vuConflict_iff _ _ _).mp hc))]

/-- The unique schema field of the C5 witness. -/
def c5Field : SchemaField := { name := "email", required := true, unique := true }

/-- A different stored record sharing the value (primary key 2). -/
def c5Other : DocInstance :=
  { schema := [c5Field], vals := [("email", Val.vStr "x")], pk := some (Val.vInt 2) }

/-- The bound form of the C5 witness: editing the record with primary key 1,
whose unique value collides with the stored record of primary key 2. -/
def c5Self : DocInstance :=
  { schema := [c5Field], vals := [("email", Val.vStr "x")], pk := some (Val.vInt 1) }

def c5Form : DocForm :=
  { inst := c5Self,
    db := [c5Other],
    fieldNames := ["email"],
    cleanedData := [("email", Val.vStr "x")] }

/-- C5 witness: the characterization applied to the concrete conflicting
form. -/
theorem C5_witness :
    (lookupA (validate_unique c5Form).1.errors c5Field.name =
        some [uniqueMessage c5Field.name] ↔
      ∃ r ∈ c5Form.db, getAttr r c5Field.name = getAttr c5Form.inst c5Field.name ∧
        (c5Form.inst.pk = none ∨ r.pk ≠ c5Form.inst.pk)) ∧
    ((¬ ∃ r ∈ c5Form.db, getAttr r c5Field.name = getAttr c5Form.inst c5Field.name ∧
        (c5Form.inst.pk = none ∨ r.pk ≠ c5Form.inst.pk)) →
      lookupA (validate_unique c5Form).1.errors c5Field.name = none) :=
  C5_validate_unique_iff_conflict c5Form c5Field (by decide) (by decide) rfl
    (by decide) rfl

/-! ### Field derivation and the metaclass (C3, C4) -/

theorem lookupA_eq_none_of_not_mem_keys {α : Type} (m : List (String × α)) (k : String)
    (h : k ∉ keysA m) : lookupA m k = none := by
  induction m with
  | nil => rfl
  | cons p rest ih =>
    simp only [keysA, List.map_cons, List.mem_cons, not_or] at h
    show (if p.1 = k then some p.2 else lookupA rest k) = none
    rw [if_neg (Ne.symm h.1)]
    exact ih (by simpa [keysA] using h.2)

theorem sdSet_append_of_not_mem {α : Type} (m : List (String × α)) (k : String) (v : α)
    (h : k ∉ keysA m) : sdSet m k v = m ++ [(k, v)] := by
  induction m with
  | nil => rfl
  | cons p rest ih =>
    simp only [keysA, List.map_cons, List.mem_cons, not_or] at h
    show (if p.1 = k then (k, v) :: rest else p :: sdSet rest k v) = (p :: rest) ++ [(k, v)]
    rw [if_neg (Ne.symm h.1), ih (by simpa [keysA] using h.2)]
    rfl

theorem sdFromList_foldl {α : Type} (l acc : List (String × α))
    (h : (keysA (acc ++ l)).Nodup) :
    l.foldl (fun a p => sdSet a p.1 p.2) acc = acc ++ l := by
  induction l generalizing acc with
  | nil => simp
  | cons p rest ih =>
    have hmem : p.1 ∉ keysA acc := by
      simp only [keysA, List.map_append, List.map_cons] at h
      have hd := (List.nodup_append.mp h).2.2
      intro hbad
      exact hd (by simpa [keysA] using hbad) (List.mem_cons_self _ _)
    rw [List.foldl_cons, sdSet_append_of_not_mem acc p.1 p.2 hmem]
    have h' : (keysA ((acc ++ [p]) ++ rest)).Nodup := by
      simpa [keysA, List.append_assoc] using h
    rw [ih (acc ++ [p]) h']
    simp

theorem sdFromList_eq_self {α : Type} (l : List (String × α))
    (h : (keysA l).Nodup) : sdFromList l = l := by
  have := sdFromList_foldl l [] (by simpa using h)
  simpa [sdFromList] using this

theorem keysA_filterMap_subset {σ α : Type} (l : List σ) (pick : σ → Option (String × α))
    (nameOf : σ → String) (hpick : ∀ x p, pick x = some p → p.1 = nameOf x)
    (a : String) (h : a ∈ keysA (l.filterMap pick)) : a ∈ l.map nameOf := by
  induction l with
  | nil => simp [keysA] at h
  | cons x rest ih =>
    rw [List.filterMap_cons] at h
    cases hp : pick x with
    | none =>
      rw [hp] at h
      exact List.mem_cons_of_mem _ (ih h)
    | some p =>
      rw [hp] at h
      simp only [keysA, List.map_cons, List.mem_cons] at h
      rcases h with h | h
      · rw [List.map_cons]
        exact List.mem_cons.mpr (Or.inl (h.trans (hpick x p hp)))
      · exact List.mem_cons_of_mem _ (ih (by simpa [keysA] using h))

theorem nodup_keysA_filterMap {σ α : Type} (l : List σ) (pick : σ → Option (String × α))
    (nameOf : σ → String) (hpick : ∀ x p, pick x = some p → p.1 = nameOf x)
    (hnd : (l.map nameOf).Nodup) : (keysA (l.filterMap pick)).Nodup := by
  induction l with
  | nil => simp [keysA]
  | cons x rest ih =>
    rw [List.map_cons, List.nodup_cons] at hnd
    rw [List.filterMap_cons]
    cases hp : pick x with
    | none => exact ih hnd.2
    | some p =>
      simp only [keysA, List.map_cons, List.nodup_cons]
      constructor
      · intro hbad
        have := keysA_filterMap_subset rest pick nameOf hpick p.1 (by simpa [keysA] using hbad)
        rw [hpick x p hp] at this
        exact hnd.1 this
      · exact ih hnd.2

theorem lookupA_map_lift {α β : Type} (m : List (String × α)) (g : α → β) (k : String) :
    lookupA (m.map (fun p => (p.1, g p.2))) k = (lookupA m k).map g := by
  induction m with
  | nil => rfl
  | cons p rest ih =>
    by_cases hp : p.1 = k
    · simp [lookupA, hp]
    · simp [lookupA, hp, ih]

/-- The keep condition of the `fields_for_document` loop: neither identity nor
collection kind, inside the (present) allow-list, outside the truthy
deny-list. -/
def ffdKeep (fields exclude : Option (List String)) (f : SchemaField) : Bool :=
  !(f.kind == .objectId || f.kind == .listField) &&
  !(fields.isSome && !((fields.getD []).contains f.name)) &&
  !(listTruthy exclude && (exclude.getD []).contains f.name)

theorem ffdLoop_gen_some (fields exclude : Option (List String))
    (widgets : Option (List (String × String))) (gen : SchemaField → Option FormField) :
    ∀ doc : List SchemaField, (∀ f ∈ doc, (gen f).isSome) →
      ffdLoop fields exclude widgets none gen doc =
        (doc.filterMap (fun f =>
          if ffdKeep fields exclude f then (gen f).map (fun ff => (f.name, ff))
          else none), []) := by
  intro doc
  induction doc with
  | nil => intro _; rfl
  | cons f rest ih =>
    intro hgen
    have hrest := ih (fun g hg => hgen g (List.mem_cons_of_mem _ hg))
    rw [List.filterMap_cons]
    cases hk1 : (f.kind == FieldKind.objectId || f.kind == FieldKind.listField) with
    | true =>
      have : ffdKeep fields exclude f = false := by
        unfold ffdKeep; rw [hk1]; simp
      simp only [ffdLoop, hk1, if_true, this, Bool.false_eq_true, if_false, hrest]
    | false =>
      cases hk2 : (fields.isSome && !((fields.getD []).contains f.name)) with
      | true =>
        have : ffdKeep fields exclude f = false := by
          unfold ffdKeep; rw [hk2]; simp
        simp only [ffdLoop, hk1, Bool.false_eq_true, if_false, hk2, if_true, this, hrest]
      | false =>
        cases hk3 : (listTruthy exclude && (exclude.getD []).contains f.name) with
        | true =>
          have : ffdKeep fields exclude f = false := by
            unfold ffdKeep; rw [hk3]; simp
          simp only [ffdLoop, hk1, hk2, Bool.false_eq_true, if_false, hk3, if_true,
            this, hrest]
        | false =>
          have hkeep : ffdKeep fields exclude f = true := by
            unfold ffdKeep; rw [hk1, hk2, hk3]; simp
          obtain ⟨ff, hff⟩ := Option.isSome_iff_exists.mp (hgen f (List.mem_cons_self _ _))
          simp only [ffdLoop, hk1, hk2, hk3, Bool.false_eq_true, if_false, hff,
            hrest, hkeep, if_true, Option.map_some]
          rfl

theorem ffd_pick_name (fields exclude : Option (List String))
    (gen : SchemaField → Option FormField) (x : SchemaField) (p : String × FormField)
    (hp : (if ffdKeep fields exclude x then (gen x).map (fun ff => (x.name, ff))
      else none) = some p) : p.1 = x.name := by
  split at hp
  · rcases Option.map_eq_some'.mp hp with ⟨ff, _, hpp⟩
    rw [← hpp]
  · exact absurd hp (by simp)

theorem ffd_fieldList_lookup (fields exclude : Option (List String))
    (gen : SchemaField → Option FormField) :
    ∀ doc : List SchemaField, (doc.map SchemaField.name).Nodup → ∀ n : String,
      lookupA (doc.filterMap (fun f =>
        if ffdKeep fields exclude f then (gen f).map (fun ff => (f.name, ff))
        else none)) n =
      match doc.find? (fun f => f.name == n) with
      | some f => if ffdKeep fields exclude f then gen f else none
      | none => none := by
  intro doc
  induction doc with
  | nil => intro _ n; rfl
  | cons f rest ih =>
    intro hnd n
    rw [List.map_cons, List.nodup_cons] at hnd
    rw [List.filterMap_cons]
    have hnone_rest : f.name ∉ rest.map SchemaField.name →
        lookupA (rest.filterMap (fun g =>
          if ffdKeep fields exclude g then (gen g).map (fun ff => (g.name, ff))
          else none)) f.name = none := by
      intro hni
      apply lookupA_eq_none_of_not_mem_keys
      intro hbad
      exact hni (keysA_filterMap_subset rest _ SchemaField.name
        (fun x p hp => ffd_pick_name fields exclude gen x p hp) f.name hbad)
    by_cases hfn : f.name = n
    · have hfind : (f :: rest).find? (fun g => g.name == n) = some f := by
        simp [List.find?_cons, hfn]
      rw [hfind]
      by_cases hkeep : ffdKeep fields exclude f = true
      · cases hg : gen f with
        | some ff =>
          simp only [hkeep, if_true, hg, Option.map_some, lookupA, hfn, if_pos rfl]
        | none =>
          simp only [hkeep, if_true, hg, Option.map_none]
          rw [← hfn]
          exact hnone_rest hnd.1
      · have hkeep' : ffdKeep fields exclude f = false := by
          simpa using hkeep
        simp only [hkeep', Bool.false_eq_true, if_false]
        rw [← hfn]
        exact hnone_rest hnd.1
    · have hfind : (f :: rest).find? (fun g => g.name == n) =
          rest.find? (fun g => g.name == n) := by
        simp [List.find?_cons, hfn]
      rw [hfind]
      by_cases hkeep : ffdKeep fields exclude f = true
      · cases hg : gen f with
        | some ff =>
          simp only [hkeep, if_true, hg, Option.map_some, lookupA, hfn, if_neg hfn]
          exact ih hnd.2 n
        | none =>
          simp only [hkeep, if_true, hg, Option.map_none]
          exact ih hnd.2 n
      · have hkeep' : ffdKeep fields exclude f = false := by
          simpa using hkeep
        simp only [hkeep', Bool.false_eq_true, if_false]
        exact ih hnd.2 n

theorem filterMap_congr_mem {α β : Type} (l : List α) (f g : α → Option β)
    (h : ∀ a ∈ l, f a = g a) : l.filterMap f = l.filterMap g := by
  induction l with
  | nil => rfl
  | cons a rest ih =>
    rw [List.filterMap_cons, List.filterMap_cons, h a (List.mem_cons_self _ _),
      ih (fun a ha => h a (List.mem_cons_of_mem _ ha))]

theorem fields_for_document_no_allow (doc : List SchemaField)
    (exclude : Option (List String)) (widgets : Option (List (String × String)))
    (gen : SchemaField → Option FormField)
    (hnd : (doc.map SchemaField.name).Nodup)
    (hgen : ∀ f ∈ doc, (gen f).isSome) :
    fields_for_document doc none exclude widgets none gen =
      doc.filterMap (fun f =>
        if ffdKeep none exclude f then some (f.name, gen f) else none) := by
  have hmap : ((doc.filterMap (fun f =>
      if ffdKeep none exclude f then (gen f).map (fun ff => (f.name, ff))
      else none)).map (fun p => (p.1, some p.2))) =
      doc.filterMap (fun f =>
        if ffdKeep none exclude f then some (f.name, gen f) else none) := by
    rw [List.map_filterMap]
    apply filterMap_congr_mem
    intro f hf
    by_cases hk : ffdKeep none exclude f = true
    · obtain ⟨ff, hff⟩ := Option.isSome_iff_exists.mp (hgen f hf)
      simp [hk, hff]
    · simp only [Bool.not_eq_true] at hk
      simp [hk]
  have hpickR : ∀ (x : SchemaField) (p : String × Option FormField),
      (if ffdKeep none exclude x then some (x.name, gen x) else none) = some p →
      p.1 = x.name := by
    intro x p hp
    split at hp
    · rw [← Option.some.inj hp]
    · exact absurd hp (by simp)
  unfold fields_for_document
  rw [ffdLoop_gen_some none exclude widgets gen doc hgen]
  simp only [listTruthy, Bool.false_eq_true, if_false]
  rw [hmap]
  exact sdFromList_eq_self _
    (nodup_keysA_filterMap doc _ SchemaField.name hpickR hnd)


theorem join_map_some {α : Type} (x : Option α) : (x.map some).join = x := by
  cases x <;> rfl

theorem find?_name_of_mem (doc : List SchemaField)
    (hnd : (doc.map SchemaField.name).Nodup) (f₀ : SchemaField) (hf : f₀ ∈ doc) :
    doc.find? (fun g => g.name == f₀.name) = some f₀ := by
  induction doc with
  | nil => simp at hf
  | cons g rest ih =>
    rw [List.map_cons, List.nodup_cons] at hnd
    rcases List.mem_cons.mp hf with hfg | hfr
    · subst hfg
      simp [List.find?_cons]
    · have hne : g.name ≠ f₀.name := by
        intro hEq
        exact hnd.1 (hEq ▸ List.mem_map_of_mem SchemaField.name hfr)
      rw [List.find?_cons_of_neg _ (by simpa using hne)]
      exact ih hnd.2 hfr

theorem keysA_map_lift {α β : Type} (m : List (String × α)) (g : α → β) :
    keysA (m.map (fun p => (p.1, g p.2))) = keysA m := by
  simp only [keysA, List.map_map]
  rfl

theorem ffd_fieldDict_lookup_join (fields exclude : Option (List String))
    (gen : SchemaField → Option FormField) (doc : List SchemaField)
    (hnd : (doc.map SchemaField.name).Nodup) (n : String) :
    (lookupA (sdFromList ((doc.filterMap (fun f =>
      if ffdKeep fields exclude f then (gen f).map (fun ff => (f.name, ff))
      else none)).map (fun p => (p.1, some p.2)))) n).join =
    match doc.find? (fun f => f.name == n) with
    | some f => if ffdKeep fields exclude f then gen f else none
    | none => none := by
  rw [sdFromList_eq_self _ (by
    rw [keysA_map_lift]
    exact nodup_keysA_filterMap doc _ SchemaField.name
      (fun x p hp => ffd_pick_name fields exclude gen x p hp) hnd)]
  rw [lookupA_map_lift, join_map_some]
  exact ffd_fieldList_lookup fields exclude gen doc hnd n

theorem fields_for_document_allow (doc : List SchemaField) (al : List String)
    (exclude : Option (List String)) (widgets : Option (List (String × String)))
    (gen : SchemaField → Option FormField)
    (hnd : (doc.map SchemaField.name).Nodup)
    (halnd : al.Nodup)
    (hgen : ∀ f ∈ doc, (gen f).isSome)
    (hal : ∀ n ∈ al, ∃ f ∈ doc, f.name = n ∧
      f.kind ≠ FieldKind.objectId ∧ f.kind ≠ FieldKind.listField) :
    fields_for_document doc (some al) exclude widgets none gen =
      al.filterMap (fun n =>
        if (listTruthy exclude && (exclude.getD []).contains n) = false then
          some (n, (doc.find? (fun f => f.name == n)).bind gen)
        else none) := by
  cases al with
  | nil =>
    unfold fields_for_document
    rw [ffdLoop_gen_some (some []) exclude widgets gen doc hgen]
    have hempty : doc.filterMap (fun f =>
        if ffdKeep (some []) exclude f then (gen f).map (fun ff => (f.name, ff))
        else none) = [] := by
      apply List.filterMap_eq_nil_iff.mpr
      intro f _
      have hk : ffdKeep (some []) exclude f = false := by
        simp [ffdKeep]
      simp [hk]
    simp [hempty, listTruthy, sdFromList]
  | cons a0 arest =>
    unfold fields_for_document
    rw [ffdLoop_gen_some (some (a0 :: arest)) exclude widgets gen doc hgen]
    simp only [listTruthy, List.isEmpty_cons, Bool.not_false, if_true, Option.getD_some]
    have hcongr : ∀ n ∈ a0 :: arest,
        (if ((!(listTruthy exclude) || !((exclude.getD []).contains n)) &&
            !(([] : List String).contains n)) then
          some (n, (lookupA (sdFromList ((doc.filterMap (fun f =>
            if ffdKeep (some (a0 :: arest)) exclude f then
              (gen f).map (fun ff => (f.name, ff)) else none)).map
              (fun p => (p.1, some p.2)))) n).join)
        else none) =
        (if (listTruthy exclude && (exclude.getD []).contains n) = false then
          some (n, (doc.find? (fun f => f.name == n)).bind gen)
        else none) := by
      intro n hn
      by_cases hex : (listTruthy exclude && (exclude.getD []).contains n) = true
      · have h12 := Bool.and_eq_true_iff.mp hex
        have h2' : n ∈ exclude.getD [] := by simpa using h12.2
        have hc1 : ((!(listTruthy exclude) || !((exclude.getD []).contains n)) &&
            !(([] : List String).contains n)) = false := by
          simp [h12.1, h2']
        rw [hc1, hex]
        simp
      · have hex' : (listTruthy exclude && (exclude.getD []).contains n) = false := by
          simpa using hex
        have hc1 : ((!(listTruthy exclude) || !((exclude.getD []).contains n)) &&
            !(([] : List String).contains n)) = true := by
          rcases Bool.and_eq_false_iff.mp hex' with h1 | h1
          · simp [h1]
          · have h1' : n ∉ exclude.getD [] := by simpa using h1
            simp [h1']
        rw [hc1, if_pos rfl, hex', if_pos rfl]
        obtain ⟨f₀, hf₀, hfn, hk1, hk2⟩ := hal n hn
        rw [ffd_fieldDict_lookup_join (some (a0 :: arest)) exclude gen doc hnd n]
        rw [← hfn, find?_name_of_mem doc hnd f₀ hf₀]
        have hkeep : ffdKeep (some (a0 :: arest)) exclude f₀ = true := by
          unfold ffdKeep
          rw [hfn]
          simp only [Option.isSome_some, Option.getD_some]
          have hmem : ((a0 :: arest).contains n) = true := by simpa using hn
          have hkk : (f₀.kind == FieldKind.objectId ||
              f₀.kind == FieldKind.listField) = false := by
            simp [hk1, hk2]
          rw [hmem, hkk, hex']
          rfl
        simp [hkeep]
    have hnodup : (keysA ((a0 :: arest).filterMap (fun n =>
        if (listTruthy exclude && (exclude.getD []).contains n) = false then
          some (n, (doc.find? (fun f => f.name == n)).bind gen)
        else none))).Nodup := by
      apply nodup_keysA_filterMap (a0 :: arest) _ (fun n => n)
      · intro x p hp
        split at hp
        · rw [← Option.some.inj hp]
        · exact absurd hp (by simp)
      · simpa using halnd
    exact (congrArg sdFromList (filterMap_congr_mem _ _ _ hcongr)).trans
      (sdFromList_eq_self _ hnodup)

theorem ffdLoop_char (fields exclude : Option (List String))
    (widgets : Option (List (String × String))) (gen : SchemaField → Option FormField) :
    ∀ doc : List SchemaField,
      ffdLoop fields exclude widgets none gen doc =
        (doc.filterMap (fun f =>
          if ffdKeep fields exclude f then (gen f).map (fun ff => (f.name, ff))
          else none),
         doc.filterMap (fun f =>
          if ffdKeep fields exclude f && (gen f).isNone then some f.name else none)) := by
  intro doc
  induction doc with
  | nil => rfl
  | cons f rest ih =>
    rw [List.filterMap_cons, List.filterMap_cons]
    cases hk1 : (f.kind == FieldKind.objectId || f.kind == FieldKind.listField) with
    | true =>
      have hkf : ffdKeep fields exclude f = false := by
        unfold ffdKeep; rw [hk1]; simp
      simp only [ffdLoop, hk1, if_true, hkf, Bool.false_eq_true, if_false,
        Bool.false_and, ih]
    | false =>
      cases hk2 : (fields.isSome && !((fields.getD []).contains f.name)) with
      | true =>
        have hkf : ffdKeep fields exclude f = false := by
          unfold ffdKeep; rw [hk2]; simp
        simp only [ffdLoop, hk1, Bool.false_eq_true, if_false, hk2, if_true, hkf,
          Bool.false_and, ih]
      | false =>
        cases hk3 : (listTruthy exclude && (exclude.getD []).contains f.name) with
        | true =>
          have hkf : ffdKeep fields exclude f = false := by
            unfold ffdKeep; rw [hk3]; simp
          simp only [ffdLoop, hk1, hk2, Bool.false_eq_true, if_false, hk3, if_true,
            hkf, Bool.false_and, ih]
        | false =>
          have hkeep : ffdKeep fields exclude f = true := by
            unfold ffdKeep; rw [hk1, hk2, hk3]; simp
          cases hg : gen f with
          | some ff =>
            simp only [ffdLoop, hk1, hk2, hk3, Bool.false_eq_true, if_false, hg, ih,
              hkeep, if_true, Option.map_some, Option.isNone_some, Bool.and_false]
            rfl
          | none =>
            simp only [ffdLoop, hk1, hk2, hk3, Bool.false_eq_true, if_false, hg, ih,
              hkeep, if_true, Option.map_none, Option.isNone_none, Bool.and_true]
            rfl

theorem fields_for_document_allow_general (doc : List SchemaField) (al : List String)
    (exclude : Option (List String)) (widgets : Option (List (String × String)))
    (gen : SchemaField → Option FormField)
    (hnd : (doc.map SchemaField.name).Nodup) (halnd : al.Nodup) :
    fields_for_document doc (some al) exclude widgets none gen =
      al.filterMap (fun n =>
        if ((!(listTruthy exclude) || !((exclude.getD []).contains n)) &&
            !((doc.filterMap (fun f =>
              if ffdKeep (some al) exclude f && (gen f).isNone then some f.name
              else none)).contains n)) then
          some (n,
            match doc.find? (fun f => f.name == n) with
            | some f => if ffdKeep (some al) exclude f then gen f else none
            | none => none)
        else none) := by
  cases hq : al with
  | nil =>
    unfold fields_for_document
    rw [ffdLoop_char (some []) exclude widgets gen doc]
    have hempty : doc.filterMap (fun f =>
        if ffdKeep (some []) exclude f then (gen f).map (fun ff => (f.name, ff))
        else none) = [] := by
      apply List.filterMap_eq_nil_iff.mpr
      intro f _
      have hk : ffdKeep (some []) exclude f = false := by
        simp [ffdKeep]
      simp [hk]
    simp [hempty, listTruthy, sdFromList]
  | cons a0 arest =>
    unfold fields_for_document
    rw [ffdLoop_char (some (a0 :: arest)) exclude widgets gen doc]
    simp only [listTruthy, List.isEmpty_cons, Bool.not_false, if_true, Option.getD_some]
    have hcongr : ∀ n ∈ a0 :: arest,
        (if ((!(listTruthy exclude) || !((exclude.getD []).contains n)) &&
            !((doc.filterMap (fun f =>
              if ffdKeep (some (a0 :: arest)) exclude f && (gen f).isNone then some f.name
              else none)).contains n)) then
          some (n, (lookupA (sdFromList ((doc.filterMap (fun f =>
            if ffdKeep (some (a0 :: arest)) exclude f then
              (gen f).map (fun ff => (f.name, ff)) else none)).map
              (fun p => (p.1, some p.2)))) n).join)
        else none) =
        (if ((!(listTruthy exclude) || !((exclude.getD []).contains n)) &&
            !((doc.filterMap (fun f =>
              if ffdKeep (some (a0 :: arest)) exclude f && (gen f).isNone then some f.name
              else none)).contains n)) then
          some (n,
            match doc.find? (fun f => f.name == n) with
            | some f => if ffdKeep (some (a0 :: arest)) exclude f then gen f else none
            | none => none)
        else none) := by
      intro n hn
      rw [ffd_fieldDict_lookup_join (some (a0 :: arest)) exclude gen doc hnd n]
    have hnodup : (keysA ((a0 :: arest).filterMap (fun n =>
        if ((!(listTruthy exclude) || !((exclude.getD []).contains n)) &&
            !((doc.filterMap (fun f =>
              if ffdKeep (some (a0 :: arest)) exclude f && (gen f).isNone then some f.name
              else none)).contains n)) then
          some (n,
            match doc.find? (fun f => f.name == n) with
            | some f => if ffdKeep (some (a0 :: arest)) exclude f then gen f else none
            | none => none)
        else none))).Nodup := by
      apply nodup_keysA_filterMap (a0 :: arest) _ (fun n => n)
      · intro x p hp
        split at hp
        · rw [← Option.some.inj hp]
        · exact absurd hp (by simp)
      · rw [hq] at halnd
        simpa using halnd
    exact (congrArg sdFromList (filterMap_congr_mem _ _ _ hcongr)).trans
      (sdFromList_eq_self _ hnodup)

theorem eq_of_mem_name_nodup (doc : List SchemaField)
    (hnd : (doc.map SchemaField.name).Nodup) (f g : SchemaField)
    (hf : f ∈ doc) (hg : g ∈ doc) (hfg : f.name = g.name) : f = g := by
  induction doc with
  | nil => simp at hf
  | cons x rest ih =>
    rw [List.map_cons, List.nodup_cons] at hnd
    rcases List.mem_cons.mp hf with h1 | h1 <;> rcases List.mem_cons.mp hg with h2 | h2
    · rw [h1, h2]
    · subst h1
      exact absurd (by rw [hfg]; exact List.mem_map_of_mem SchemaField.name h2) hnd.1
    · subst h2
      exact absurd (by rw [← hfg]; exact List.mem_map_of_mem SchemaField.name h1) hnd.1
    · exact ih hnd.2 h1 h2

/-- A name in the allow-list that the amended C3 claim calls unknown: it is
not dropped by the truthy deny-list, no non-identity, non-collection schema
field bears it, and it is not explicitly declared. -/
def unknownAllowName (dc : DocClass) (exclude : Option (List String))
    (declared : List (String × FormField)) (n : String) : Prop :=
  (listTruthy exclude && (exclude.getD []).contains n) = false ∧
  (∀ f ∈ dc.schema, f.name = n →
    f.kind = FieldKind.objectId ∨ f.kind = FieldKind.listField) ∧
  n ∉ keysA declared

theorem ignored_contains_iff (doc : List SchemaField) (al : List String)
    (exclude : Option (List String)) (gen : SchemaField → Option FormField) (n : String) :
    ((doc.filterMap (fun f =>
      if ffdKeep (some al) exclude f && (gen f).isNone then some f.name
      else none)).contains n) = true ↔
    ∃ f ∈ doc, f.name = n ∧ ffdKeep (some al) exclude f = true ∧ gen f = none := by
  rw [List.contains_iff_exists_mem_beq]
  constructor
  · rintro ⟨m, hm, hbeq⟩
    rw [List.mem_filterMap] at hm
    obtain ⟨f, hf, hpick⟩ := hm
    split at hpick
    · rename_i hkin
      refine ⟨f, hf, ?_, ?_, ?_⟩
      · rw [Option.some.inj hpick]
        exact (beq_iff_eq.mp hbeq).symm
      · exact (Bool.and_eq_true_iff.mp hkin).1
      · exact Option.isNone_iff_eq_none.mp (Bool.and_eq_true_iff.mp hkin).2
    · exact absurd hpick (by simp)
  · rintro ⟨f, hf, hfn, hkeep, hgen⟩
    refine ⟨n, ?_, by simp⟩
    rw [List.mem_filterMap]
    refine ⟨f, hf, ?_⟩
    rw [hkeep, hgen]
    simp [hfn]

theorem missing_mem_iff (dc : DocClass) (al : List String)
    (exclude : Option (List String)) (widgets : Option (List (String × String)))
    (gen : SchemaField → Option FormField) (declared : List (String × FormField))
    (hnd : (dc.schema.map SchemaField.name).Nodup) (halnd : al.Nodup) (n : String) :
    n ∈ ((((fields_for_document dc.schema (some al) exclude widgets none gen).filter
        (fun p => p.2.isNone)).map (fun p => p.1)).filter
        (fun m => !((keysA declared).contains m))) ↔
      (n ∈ al ∧ unknownAllowName dc exclude declared n) := by
  rw [fields_for_document_allow_general dc.schema al exclude widgets gen hnd halnd]
  constructor
  · intro hmem
    rw [List.mem_filter] at hmem
    obtain ⟨hmem1, hdeclb⟩ := hmem
    have hdecl : n ∉ keysA declared := by simpa using hdeclb
    rw [List.mem_map] at hmem1
    obtain ⟨p, hp, hpn⟩ := hmem1
    rw [List.mem_filter] at hp
    obtain ⟨hpM, hpnoneb⟩ := hp
    have hpnone : p.2 = none := Option.isNone_iff_eq_none.mp hpnoneb
    rw [List.mem_filterMap] at hpM
    obtain ⟨m, hmal, hpick⟩ := hpM
    split at hpick
    · rename_i hcond
      have hpeq := Option.some.inj hpick
      have hmn : m = n := by rw [← hpn, ← hpeq]
      subst hmn
      have hvalnone : (match dc.schema.find? (fun f => f.name == m) with
          | some f => if ffdKeep (some al) exclude f then gen f else none
          | none => none) = none := by
        rw [show (match dc.schema.find? (fun f => f.name == m) with
          | some f => if ffdKeep (some al) exclude f then gen f else none
          | none => none) = ((m, (match dc.schema.find? (fun f => f.name == m) with
          | some f => if ffdKeep (some al) exclude f then gen f else none
          | none => none)) : String × Option FormField).2 from rfl, hpeq, hpnone]
      obtain ⟨hc1, hc2⟩ := Bool.and_eq_true_iff.mp hcond
      have hexcl : (listTruthy exclude && (exclude.getD []).contains m) = false := by
        rcases Bool.or_eq_true_iff.mp hc1 with h | h
        · have h' : listTruthy exclude = false := by simpa using h
          simp only [h', Bool.false_and]
        · have h' : (exclude.getD []).contains m = false := by simpa using h
          simp only [h', Bool.and_false]
      refine ⟨hmal, hexcl, ?_, hdecl⟩
      intro f hf hfname
      by_contra hgood
      obtain ⟨hg1, hg2⟩ := not_or.mp hgood
      have hkeep : ffdKeep (some al) exclude f = true := by
        unfold ffdKeep
        rw [hfname]
        simp only [Option.isSome_some, Option.getD_some]
        have hmal' : (al.contains m) = true := by simpa using hmal
        have hkk : (f.kind == FieldKind.objectId || f.kind == FieldKind.listField)
            = false := by simp [hg1, hg2]
        rw [hmal', hkk, hexcl]
        rfl
      cases hg : gen f with
      | none =>
        have hig : ((dc.schema.filterMap (fun f =>
            if ffdKeep (some al) exclude f && (gen f).isNone then some f.name
            else none)).contains m) = true :=
          (ignored_contains_iff dc.schema al exclude gen m).mpr ⟨f, hf, hfname, hkeep, hg⟩
        rw [hig] at hc2
        simp at hc2
      | some ff =>
        have hfind : dc.schema.find? (fun g => g.name == m) = some f := by
          rw [← hfname]
          exact find?_name_of_mem dc.schema hnd f hf
        rw [hfind] at hvalnone
        dsimp only at hvalnone
        rw [hkeep] at hvalnone
        simp [hg] at hvalnone
    · exact absurd hpick (by simp)
  · rintro ⟨hmal, hexcl, hbad, hdecl⟩
    rw [List.mem_filter]
    refine ⟨?_, by simpa using hdecl⟩
    rw [List.mem_map]
    refine ⟨(n, none), ?_, rfl⟩
    rw [List.mem_filter]
    refine ⟨?_, rfl⟩
    rw [List.mem_filterMap]
    refine ⟨n, hmal, ?_⟩
    have hc1 : ((!(listTruthy exclude)) || !((exclude.getD []).contains n)) = true := by
      rcases Bool.and_eq_false_iff.mp hexcl with h | h
      · simp only [h, Bool.not_false, Bool.true_or]
      · simp only [h, Bool.not_false, Bool.or_true]
    have hc2 : ((dc.schema.filterMap (fun f =>
        if ffdKeep (some al) exclude f && (gen f).isNone then some f.name
        else none)).contains n) = false := by
      cases hcc : ((dc.schema.filterMap (fun f =>
          if ffdKeep (some al) exclude f && (gen f).isNone then some f.name
          else none)).contains n) with
      | false => rfl
      | true =>
        obtain ⟨f, hf, hfn, hkeep, hg⟩ := (ignored_contains_iff dc.schema al exclude gen n).mp hcc
        have hbadf := hbad f hf hfn
        have hkf : ffdKeep (some al) exclude f = false := by
          unfold ffdKeep
          have hkk : (f.kind == FieldKind.objectId || f.kind == FieldKind.listField)
              = true := by
            rcases hbadf with h | h <;> simp [h]
          rw [hkk]
          rfl
        rw [hkf] at hkeep
        simp at hkeep
    have hcond : (((!(listTruthy exclude)) || !((exclude.getD []).contains n)) &&
        !((dc.schema.filterMap (fun f =>
          if ffdKeep (some al) exclude f && (gen f).isNone then some f.name
          else none)).contains n)) = true := by
      rw [hc1, hc2]
      rfl
    have hval : (match dc.schema.find? (fun f => f.name == n) with
        | some f => if ffdKeep (some al) exclude f then gen f else none
        | none => none) = none := by
      cases hfind : dc.schema.find? (fun f => f.name == n) with
      | none => rfl
      | some f₀ =>
        have hf₀ : f₀ ∈ dc.schema := List.mem_of_find?_eq_some hfind
        have hp := List.find?_some hfind
        have hf₀n : f₀.name = n := by simpa using hp
        have hbadf := hbad f₀ hf₀ hf₀n
        have hkf : ffdKeep (some al) exclude f₀ = false := by
          unfold ffdKeep
          have hkk : (f₀.kind == FieldKind.objectId || f₀.kind == FieldKind.listField)
              = true := by
            rcases hbadf with h | h <;> simp [h]
          rw [hkk]
          rfl
        dsimp only
        rw [hkf]
        rfl
    rw [hcond]
    show some (n, (match dc.schema.find? (fun f => f.name == n) with
      | some f => if ffdKeep (some al) exclude f then gen f else none
      | none => none)) = some (n, none)
    rw [hval]

/-- The allow-list names the metaclass reports as unknown: the names of the
derived mapping's `None` entries, minus the declared names (see
`documentFormMetaclassNew`). -/
def metaclassMissing (dc : DocClass) (metaFields metaExclude : Option (List String))
    (widgets : Option (List (String × String)))
    (callback : Option (SchemaField → Option String → Option FormField))
    (gen : SchemaField → Option FormField)
    (declaredFields : List (String × FormField)) : List String :=
  (((fields_for_document dc.schema metaFields metaExclude widgets callback gen).filter
    (fun p => p.2.isNone)).map (fun p => p.1)).filter
    (fun n => !((keysA declaredFields).contains n))

theorem documentFormMetaclassNew_eq (dc : DocClass)
    (metaFields metaExclude : Option (List String))
    (widgets : Option (List (String × String)))
    (callback : Option (SchemaField → Option String → Option FormField))
    (gen : SchemaField → Option FormField)
    (declaredFields : List (String × FormField)) :
    documentFormMetaclassNew dc metaFields metaExclude widgets callback gen declaredFields =
      if !(metaclassMissing dc metaFields metaExclude widgets callback gen
          declaredFields).isEmpty then
        Except.error (FieldErrorE.mk (metaclassMissing dc metaFields metaExclude widgets
          callback gen declaredFields) dc.name)
      else Except.ok (sdUpdate
        (fields_for_document dc.schema metaFields metaExclude widgets callback gen)
        (declaredFields.map (fun p => (p.1, some p.2)))) := rfl

theorem metaclassMissing_mem_iff (dc : DocClass) (al : List String)
    (exclude : Option (List String)) (widgets : Option (List (String × String)))
    (gen : SchemaField → Option FormField) (declared : List (String × FormField))
    (hnd : (dc.schema.map SchemaField.name).Nodup) (halnd : al.Nodup) (n : String) :
    n ∈ metaclassMissing dc (some al) exclude widgets none gen declared ↔
      (n ∈ al ∧ unknownAllowName dc exclude declared n) :=
  missing_mem_iff dc al exclude widgets gen declared hnd halnd n

/-- C3: corrected.  At class-definition time with a configured document class
and an allow-list, class definition fails with a configuration error if and
only if some allow-list name is unknown in the narrower sense of
`unknownAllowName`: not removed by the truthy deny-list, borne by no
non-identity, non-collection schema field, and not explicitly declared.  Any
raised error names exactly those allow-list names and the document class.
Allow-list names that the deny-list removes, or whose schema field the
generator declines, are silently dropped rather than reported — contrary to
the original claim, which demands an error for every allow-list name without
a corresponding derived or declared field. -/
theorem C3_amended_unknown_allow_names (dc : DocClass) (al : List String)
    (exclude : Option (List String)) (widgets : Option (List (String × String)))
    (gen : SchemaField → Option FormField) (declaredFields : List (String × FormField))
    (hnd : (dc.schema.map SchemaField.name).Nodup) (halnd : al.Nodup) :
    ((∃ e, documentFormMetaclassNew dc (some al) exclude widgets none gen declaredFields
        = Except.error e) ↔
      ∃ n ∈ al, unknownAllowName dc exclude declaredFields n) ∧
    (∀ e, documentFormMetaclassNew dc (some al) exclude widgets none gen declaredFields
        = Except.error e →
      e.documentName = dc.name ∧
      ∀ n, n ∈ e.missingFields ↔
        (n ∈ al ∧ unknownAllowName dc exclude declaredFields n)) := by
  have hmem := metaclassMissing_mem_iff dc al exclude widgets gen declaredFields hnd halnd
  have heq := documentFormMetaclassNew_eq dc (some al) exclude widgets none gen declaredFields
  by_cases hemp : (metaclassMissing dc (some al) exclude widgets none gen
      declaredFields).isEmpty = true
  · have hok : documentFormMetaclassNew dc (some al) exclude widgets none gen declaredFields
        = Except.ok (sdUpdate
          (fields_for_document dc.schema (some al) exclude widgets none gen)
          (declaredFields.map (fun p => (p.1, some p.2)))) := by
      rw [heq, hemp]
      rfl
    refine ⟨⟨?_, ?_⟩, ?_⟩
    · rintro ⟨e, he⟩
      rw [hok] at he
      exact absurd he (by simp)
    · rintro ⟨n, hnal, hun⟩
      have hn := (hmem n).mpr ⟨hnal, hun⟩
      have hnil : metaclassMissing dc (some al) exclude widgets none gen declaredFields
          = [] := by simpa using hemp
      rw [hnil] at hn
      simp at hn
    · intro e he
      rw [hok] at he
      exact absurd he (by simp)
  · have hemp' : (metaclassMissing dc (some al) exclude widgets none gen
        declaredFields).isEmpty = false := by
      simpa using hemp
    have herr : documentFormMetaclassNew dc (some al) exclude widgets none gen declaredFields
        = Except.error (FieldErrorE.mk (metaclassMissing dc (some al) exclude widgets
            none gen declaredFields) dc.name) := by
      rw [heq, hemp']
      rfl
    refine ⟨⟨?_, ?_⟩, ?_⟩
    · intro _
      have hne : metaclassMissing dc (some al) exclude widgets none gen declaredFields
          ≠ [] := by
        intro h
        rw [h] at hemp'
        simp at hemp'
      obtain ⟨n, hn⟩ := List.exists_mem_of_ne_nil _ hne
      obtain ⟨h1, h2⟩ := (hmem n).mp hn
      exact ⟨n, h1, h2⟩
    · intro _
      exact ⟨_, herr⟩
    · intro e he
      rw [herr] at he
      have he' := Except.error.inj he
      subst he'
      exact ⟨rfl, fun n => hmem n⟩

/-- A document class for the C3 counterexample, with two plain fields. -/
def c3Doc : DocClass where
  name := "Thing"
  schema := [{ name := "a" }, { name := "b" }]

/-- A field generator that declines field b (mongoengine field kinds without
a form-field mapping produce None). -/
def c3Gen : SchemaField → Option FormField :=
  fun f => if f.name == "b" then none else some { sourceName := f.name }

/-- C3: counterexample to the original claim.  With allow-list [a, b], a
truthy deny-list removing a, and a generator declining b, the auto-derived
mapping is empty and nothing is declared — so neither allow-list name
corresponds to a known field — yet class definition succeeds without any
configuration error. -/
theorem C3_counterexample_unknown_names_silently_dropped :
    (ffdLoop (some ["a", "b"]) (some ["a"]) none none c3Gen c3Doc.schema).1 = [] ∧
    documentFormMetaclassNew c3Doc (some ["a", "b"]) (some ["a"]) none none c3Gen []
      = Except.ok [] := ⟨rfl, rfl⟩

/-- A document class for the C3 witness, with one plain field. -/
def c3wDoc : DocClass where
  name := "Article"
  schema := [{ name := "title" }]

/-- A field generator that keeps every field. -/
def c3wGen : SchemaField → Option FormField := fun f => some { sourceName := f.name }

/-- Concrete instantiation of the amended C3 theorem: an allow-list naming
the schema field and a ghost field, with no deny-list and no declared
fields. -/
theorem C3_amended_witness :
    ((∃ e, documentFormMetaclassNew c3wDoc (some ["title", "ghost"]) none none none c3wGen []
        = Except.error e) ↔
      ∃ n ∈ ["title", "ghost"], unknownAllowName c3wDoc none [] n) ∧
    (∀ e, documentFormMetaclassNew c3wDoc (some ["title", "ghost"]) none none none c3wGen []
        = Except.error e →
      e.documentName = c3wDoc.name ∧
      ∀ n, n ∈ e.missingFields ↔
        (n ∈ ["title", "ghost"] ∧ unknownAllowName c3wDoc none [] n)) :=
  C3_amended_unknown_allow_names c3wDoc ["title", "ghost"] none none c3wGen []
    (by decide) (by decide)

/-- C4: for a document class with at least one non-identity, non-collection
schema field, the auto-derived mapping contains exactly the non-identity,
non-collection schema fields that survive the allow/deny lists, in schema
order; when a truthy allow-list is given the mapping is rebuilt in allow-list
order; and in the metaclass's final mapping a declared form field replaces
the derived one on a name collision while every other name keeps its derived
value. -/
theorem C4_fields_for_document_content_order_merge (dc : DocClass) (al : List String)
    (exclude : Option (List String)) (widgets : Option (List (String × String)))
    (gen : SchemaField → Option FormField) (declaredFields : List (String × FormField))
    (hne : ∃ f ∈ dc.schema, f.kind ≠ FieldKind.objectId ∧ f.kind ≠ FieldKind.listField)
    (hnd : (dc.schema.map SchemaField.name).Nodup) (halnd : al.Nodup)
    (hgen : ∀ f ∈ dc.schema, (gen f).isSome)
    (hal : ∀ n ∈ al, ∃ f ∈ dc.schema, f.name = n ∧
      f.kind ≠ FieldKind.objectId ∧ f.kind ≠ FieldKind.listField)
    (hdnd : (keysA declaredFields).Nodup) :
    fields_for_document dc.schema none exclude widgets none gen =
      dc.schema.filterMap (fun f =>
        if ffdKeep none exclude f then some (f.name, gen f) else none) ∧
    fields_for_document dc.schema (some al) exclude widgets none gen =
      al.filterMap (fun n =>
        if (listTruthy exclude && (exclude.getD []).contains n) = false then
          some (n, (dc.schema.find? (fun f => f.name == n)).bind gen)
        else none) ∧
    ∀ metaFields result,
      documentFormMetaclassNew dc metaFields exclude widgets none gen declaredFields
        = Except.ok result →
      (∀ n ff, (n, ff) ∈ declaredFields → lookupA result n = some (some ff)) ∧
      (∀ n, n ∉ keysA declaredFields →
        lookupA result n =
          lookupA (fields_for_document dc.schema metaFields exclude widgets none gen) n) := by
  refine ⟨fields_for_document_no_allow dc.schema exclude widgets gen hnd hgen,
    fields_for_document_allow dc.schema al exclude widgets gen hnd halnd hgen hal, ?_⟩
  intro metaFields result hres
  rw [documentFormMetaclassNew_eq] at hres
  split at hres
  · exact absurd hres (by simp)
  · have hres' := Except.ok.inj hres
    constructor
    · intro n ff hmem
      rw [← hres']
      apply lookupA_sdUpdate_mem_nodup
      · rw [keysA_map_lift]
        exact hdnd
      · exact List.mem_map_of_mem _ hmem
    · intro n hn
      rw [← hres']
      apply lookupA_sdUpdate_not_mem
      rw [keysA_map_lift]
      exact hn

/-- A document class for the C4 witness: an identity field, a collection
field and two plain fields. -/
def c4Doc : DocClass where
  name := "Post"
  schema := [{ name := "id", kind := FieldKind.objectId },
    { name := "tags", kind := FieldKind.listField }, { name := "title" }, { name := "body" }]

/-- A field generator that keeps every field. -/
def c4Gen : SchemaField → Option FormField := fun f => some { sourceName := f.name }

/-- The declared form field that overrides the derived body field. -/
def c4BodyField : FormField := { sourceName := "body_declared" }

/-- The metaclass's final mapping for the C4 witness inputs. -/
def c4Result : List (String × Option FormField) :=
  [("title", some { sourceName := "title" }), ("body", some c4BodyField)]

/-- Concrete instantiation of the C4 theorem: the derived mapping lists
exactly the two plain fields in schema order (identity and collection fields
dropped), the declared body field wins its name collision, and title keeps
its derived form field. -/
theorem C4_witness :
    fields_for_document c4Doc.schema none none none none c4Gen =
      [("title", some { sourceName := "title" }),
       ("body", some { sourceName := "body" })] ∧
    documentFormMetaclassNew c4Doc none none none none c4Gen [("body", c4BodyField)]
      = Except.ok c4Result ∧
    lookupA c4Result "body" = some (some c4BodyField) ∧
    lookupA c4Result "title" = some (some { sourceName := "title" }) := by
  have h := C4_fields_for_document_content_order_merge c4Doc ["title", "body"] none none
    c4Gen [("body", c4BodyField)] (by decide) (by decide) (by decide) (by decide)
    (by decide) (by decide)
  refine ⟨h.1.trans rfl, rfl, ?_, ?_⟩
  · exact (h.2.2 none c4Result rfl).1 "body" c4BodyField (by decide)
  · exact ((h.2.2 none c4Result rfl).2 "title" (by decide)).trans rfl
